import Mathlib

/-!
Verification development for the py-debugger repository.

The development shallowly embeds the three source files:
  src/services/visualBuilder.py  (expression resolver, visual element model,
                                  array ownership, binding update, serializer)
  src/services/pythonTracer.py   (step recorder: variable capture, run/trace
                                  state machine)
  src/services/pythonAnalyzer.py (external static analyzer; not needed by the
                                  claims settled here)

Python values are modelled by the inductive PyVal below; Python floats are
modelled as exact rationals (Rat).  Machine floating point is abstracted:
operations whose float result is irrational (general sqrt/log, fractional
powers) are modelled as evaluation errors, and the repr of non-string values
under str() is a fixed deterministic rendering.  Fallible Python code is
modelled with Except/Option; an exception that escapes a routine is an
explicit error value, and the state at the moment the exception is raised is
returned alongside it (Python mutations performed before a raise persist).
-/

/-! # Python value universe -/

mutual

/-- Model of the Python values that flow through the two subsystems:
scalars, strings, lists, tuples, string-keyed dicts, and the opaque builtin
function objects stored in the resolver's globals table. -/
inductive PyVal where
  | none
  | bool (b : Bool)
  | int (n : Int)
  | float (q : Rat)
  | str (s : String)
  | list (xs : PyList)
  | tuple (xs : PyList)
  | dict (kvs : PyDict)
  | builtin (fn : String)
deriving DecidableEq

/-- Spine of a Python list/tuple of PyVal (a mutual list type is used so that
decidable equality can be derived). -/
inductive PyList where
  | nil
  | cons (v : PyVal) (t : PyList)
deriving DecidableEq

/-- Spine of a string-keyed Python dict of PyVal. -/
inductive PyDict where
  | nil
  | cons (k : String) (v : PyVal) (t : PyDict)
deriving DecidableEq

end

def plOf : List PyVal → PyList
  | [] => .nil
  | v :: t => .cons v (plOf t)

def plToList : PyList → List PyVal
  | .nil => []
  | .cons v t => v :: plToList t

def plLen : PyList → Nat
  | .nil => 0
  | .cons _ t => plLen t + 1

def plAll (p : PyVal → Bool) : PyList → Bool
  | .nil => true
  | .cons v t => p v && plAll p t

def plMap (f : PyVal → PyVal) : PyList → PyList
  | .nil => .nil
  | .cons v t => .cons (f v) (plMap f t)

def plAppend : PyList → PyList → PyList
  | .nil, ys => ys
  | .cons v t, ys => .cons v (plAppend t ys)

def plGet? : PyList → Nat → Option PyVal
  | .nil, _ => Option.none
  | .cons v _, 0 => some v
  | .cons _ t, n + 1 => plGet? t n

def pdLen : PyDict → Nat
  | .nil => 0
  | .cons _ _ t => pdLen t + 1

/-- Python int() truncation of an exact rational toward zero, as applied to a
float (the denominator of a normalized Rat is positive). -/
def pyTruncRat (q : Rat) : Int := q.num.tdiv q.den

/-- Python truthiness of a modelled value (used for "if self.element_type"
and "if self.var_name" style tests). -/
def pyTruthy : PyVal → Bool
  | .none => false
  | .bool b => b
  | .int n => n != 0
  | .float q => q != 0
  | .str s => s != ""
  | .list xs => plLen xs != 0
  | .tuple xs => plLen xs != 0
  | .dict kvs => pdLen kvs != 0
  | .builtin _ => true

/-- Test used by the tracer for "name.startswith an underscore". -/
def strStartsUnderscore (s : String) : Bool :=
  match s.data with
  | [] => false
  | c :: _ => c = '_'

/-- Code-point comparison of char lists; this is exactly Python's
lexicographic string ordering. -/
def charListLt : List Char → List Char → Bool
  | [], [] => false
  | [], _ :: _ => true
  | _ :: _, [] => false
  | a :: as, b :: bs =>
    if a.val < b.val then true
    else if b.val < a.val then false
    else charListLt as bs

/-- Python string "less than". -/
def pyStrLt (a b : String) : Bool := charListLt a.data b.data

/-! # Expression resolver (visualBuilder.py lines 1-27)

The author-facing binding expressions are eval'd strings.  The embedding
replaces the text by an abstract syntax of the expression fragment the
resolver accepts: literals, names, arithmetic, and calls.  Name lookup is by
construction limited to the step's variable mapping (the eval locals) and
the fixed _V_GLOBALS whitelist (the eval globals, whose __builtins__ entry
is the empty dict). -/

mutual

/-- Abstract syntax of a binding expression. -/
inductive VExpr where
  | lit (v : PyVal)
  | name (n : String)
  | add (a b : VExpr)
  | sub (a b : VExpr)
  | mul (a b : VExpr)
  | div (a b : VExpr)
  | call (fn : String) (args : VArgs)
deriving DecidableEq

/-- Argument list of a call expression. -/
inductive VArgs where
  | nil
  | cons (e : VExpr) (es : VArgs)
deriving DecidableEq

end

/-- Ways in which evaluating an expression can raise. -/
inductive EvalErr where
  | nameErr
  | typeErr
  | zeroDiv
  | valueErr
  | floatNotExact
deriving DecidableEq

/-- The fixed eval globals table _V_GLOBALS (visualBuilder.py lines 3-10):
the numeric-helper whitelist, pi, and an empty __builtins__ dict. -/
def vGlobals : List (String × PyVal) :=
  [("__builtins__", .dict .nil),
   ("abs", .builtin "abs"), ("min", .builtin "min"), ("max", .builtin "max"),
   ("sum", .builtin "sum"),
   ("round", .builtin "round"), ("len", .builtin "len"),
   ("int", .builtin "int"), ("float", .builtin "float"),
   ("sqrt", .builtin "sqrt"), ("floor", .builtin "floor"),
   ("ceil", .builtin "ceil"),
   ("log", .builtin "log"), ("pow", .builtin "pow"),
   ("pi", .float ((884279719003555 : Rat) / 281474976710656))]

/-- Names of the helper functions and constants in the whitelist. -/
def vGlobalNames : List String :=
  ["abs", "min", "max", "sum", "round", "len", "int", "float",
   "sqrt", "floor", "ceil", "log", "pow", "pi"]

/-- Name lookup of eval(expr, _V_GLOBALS, params): locals (the supplied
variable mapping) first, then the fixed globals table; nothing else. -/
def lookupName (n : String) (params : List (String × PyVal)) : Option PyVal :=
  match params.lookup n with
  | some v => some v
  | Option.none => vGlobals.lookup n

/-- Numeric view of a value (bool coerces to 0/1 like Python). -/
def pyNumQ : PyVal → Option Rat
  | .int n => some (n : Rat)
  | .bool b => some (if b then 1 else 0)
  | .float q => some q
  | _ => Option.none

def pyIsFloat : PyVal → Bool
  | .float _ => true
  | _ => false

def pyIsIntLike : PyVal → Bool
  | .int _ => true
  | .bool _ => true
  | _ => false

/-- Integer view of an int or bool (Python bools are ints). -/
def pyIntOf : PyVal → Option Int
  | .int n => some n
  | .bool b => some (if b then 1 else 0)
  | _ => Option.none

/-- Python binary +: int-like operands give an int, any float operand
gives a float, strings and lists concatenate. -/
def pyAdd : PyVal → PyVal → Except EvalErr PyVal
  | .str a, .str b => .ok (.str (a ++ b))
  | .list a, .list b => .ok (.list (plAppend a b))
  | a, b =>
    match pyIntOf a, pyIntOf b with
    | some x, some y => .ok (.int (x + y))
    | _, _ =>
      match pyNumQ a, pyNumQ b with
      | some x, some y => .ok (.float (x + y))
      | _, _ => .error .typeErr

/-- Python binary -. -/
def pySub (a b : PyVal) : Except EvalErr PyVal :=
  match pyIntOf a, pyIntOf b with
  | some x, some y => .ok (.int (x - y))
  | _, _ =>
    match pyNumQ a, pyNumQ b with
    | some x, some y => .ok (.float (x - y))
    | _, _ => .error .typeErr

/-- Python binary *. -/
def pyMul (a b : PyVal) : Except EvalErr PyVal :=
  match pyIntOf a, pyIntOf b with
  | some x, some y => .ok (.int (x * y))
  | _, _ =>
    match pyNumQ a, pyNumQ b with
    | some x, some y => .ok (.float (x * y))
    | _, _ => .error .typeErr

/-- Python true division /: always a float, error on zero divisor. -/
def pyDiv (a b : PyVal) : Except EvalErr PyVal :=
  match pyNumQ a, pyNumQ b with
  | some x, some y => if y = 0 then .error .zeroDiv else .ok (.float (x / y))
  | _, _ => .error .typeErr

/-- Round half to even on an exact rational (Python round's tie rule). -/
def roundHalfEven (q : Rat) : Int :=
  let f : Int := ⌊q⌋
  let r : Rat := q - (f : Rat)
  if 2 * r < 1 then f
  else if 1 < 2 * r then f + 1
  else if f % 2 = 0 then f else f + 1

/-- Exact rational square root when one exists. -/
def ratSqrt? (q : Rat) : Option Rat :=
  let ns := Nat.sqrt q.num.toNat
  let ds := Nat.sqrt q.den
  if 0 ≤ q.num ∧ (ns * ns : Nat) = q.num.toNat ∧ (ds * ds : Nat) = q.den then
    some ((ns : Rat) / (ds : Rat))
  else Option.none

/-- Python len() of a value. -/
def pyLenOf : PyVal → Except EvalErr Int
  | .str s => .ok s.length
  | .list xs => .ok (plLen xs)
  | .tuple xs => .ok (plLen xs)
  | .dict kvs => .ok (pdLen kvs)
  | _ => .error .typeErr

/-- Minimum/maximum of a nonempty value list under Python comparison
(numbers compare by magnitude, strings by code points; mixing fails). -/
def pyMinMax (isMin : Bool) : List PyVal → Except EvalErr PyVal
  | [] => .error .typeErr
  | v :: rest =>
    rest.foldl
      (fun acc w =>
        match acc with
        | .error e => .error e
        | .ok best =>
          match pyNumQ best, pyNumQ w with
          | some x, some y =>
            if isMin then (if y < x then .ok w else .ok best)
            else (if x < y then .ok w else .ok best)
          | _, _ =>
            match best, w with
            | .str a, .str b =>
              if isMin then (if pyStrLt b a then .ok w else .ok best)
              else (if pyStrLt a b then .ok w else .ok best)
            | _, _ => .error .typeErr)
      (.ok v)

/-- Python sum over a list with a numeric start value. -/
def pySumList (start : PyVal) (xs : List PyVal) : Except EvalErr PyVal :=
  xs.foldl
    (fun acc w =>
      match acc with
      | .error e => .error e
      | .ok sofar => pyAdd sofar w)
    (.ok start)

/-- Python int() conversion. -/
def pyIntConv : PyVal → Except EvalErr PyVal
  | .int n => .ok (.int n)
  | .bool b => .ok (.int (if b then 1 else 0))
  | .float q => .ok (.int (pyTruncRat q))
  | .str s =>
    match (s.trim).toInt? with
    | some n => .ok (.int n)
    | Option.none => .error .valueErr
  | _ => .error .typeErr

/-- Python float() conversion (string parsing is modelled only for integer
literals; general float literals are outside the exact model). -/
def pyFloatConv : PyVal → Except EvalErr PyVal
  | .int n => .ok (.float (n : Rat))
  | .bool b => .ok (.float (if b then 1 else 0))
  | .float q => .ok (.float q)
  | .str s =>
    match (s.trim).toInt? with
    | some n => .ok (.float (n : Rat))
    | Option.none => .error .valueErr
  | _ => .error .typeErr

/-- Semantics of the whitelisted helper functions.  Calls whose exact float
result would be irrational (general sqrt/log, fractional powers) are
modelled as the error floatNotExact; the resolver turns every error into
the sentinel anyway. -/
def applyBuiltin (b : String) (args : List PyVal) : Except EvalErr PyVal :=
  match b, args with
  | "abs", [v] =>
    (match v with
     | .int n => .ok (.int n.natAbs)
     | .bool bb => .ok (.int (if bb then 1 else 0))
     | .float q => .ok (.float |q|)
     | _ => .error .typeErr)
  | "len", [v] => (pyLenOf v).map PyVal.int
  | "min", [.list xs] => pyMinMax true (plToList xs)
  | "min", vs => pyMinMax true vs
  | "max", [.list xs] => pyMinMax false (plToList xs)
  | "max", vs => pyMinMax false vs
  | "sum", [.list xs] => pySumList (.int 0) (plToList xs)
  | "sum", [.list xs, start] => pySumList start (plToList xs)
  | "round", [v] =>
    (match pyNumQ v with
     | some q => .ok (.int (roundHalfEven q))
     | Option.none => .error .typeErr)
  | "int", [v] => pyIntConv v
  | "float", [v] => pyFloatConv v
  | "sqrt", [v] =>
    (match pyNumQ v with
     | some q =>
       if q < 0 then .error .valueErr
       else (match ratSqrt? q with
             | some r => .ok (.float r)
             | Option.none => .error .floatNotExact)
     | Option.none => .error .typeErr)
  | "floor", [v] =>
    (match pyNumQ v with
     | some q => .ok (.int ⌊q⌋)
     | Option.none => .error .typeErr)
  | "ceil", [v] =>
    (match pyNumQ v with
     | some q => .ok (.int ⌈q⌉)
     | Option.none => .error .typeErr)
  | "log", [v] =>
    (match pyNumQ v with
     | some q =>
       if q ≤ 0 then .error .valueErr
       else if q = 1 then .ok (.float 0)
       else .error .floatNotExact
     | Option.none => .error .typeErr)
  | "pow", [a, e] =>
    (match pyNumQ a, e with
     | some q, .int n =>
       if 0 ≤ n then
         (if pyIsFloat a then .ok (.float (q ^ n.toNat)) else .ok (.int ((q ^ n.toNat).num)))
       else if q = 0 then .error .zeroDiv
       else .ok (.float (q ^ n.toNat)⁻¹)
     | some q, .bool bb =>
       (if pyIsFloat a then .ok (.float (if bb then q else 1))
        else .ok (.int (if bb then q.num else 1)))
     | _, _ => .error .floatNotExact)
  | _, _ => .error .typeErr

mutual

/-- Evaluation of a binding expression against the step's variable mapping,
with name lookup through lookupName only. -/
def evalV : VExpr → List (String × PyVal) → Except EvalErr PyVal
  | .lit v, _ => .ok v
  | .name n, params =>
    (match lookupName n params with
     | some v => .ok v
     | Option.none => .error .nameErr)
  | .add a b, params =>
    (match evalV a params with
     | .error e => .error e
     | .ok x =>
       match evalV b params with
       | .error e => .error e
       | .ok y => pyAdd x y)
  | .sub a b, params =>
    (match evalV a params with
     | .error e => .error e
     | .ok x =>
       match evalV b params with
       | .error e => .error e
       | .ok y => pySub x y)
  | .mul a b, params =>
    (match evalV a params with
     | .error e => .error e
     | .ok x =>
       match evalV b params with
       | .error e => .error e
       | .ok y => pyMul x y)
  | .div a b, params =>
    (match evalV a params with
     | .error e => .error e
     | .ok x =>
       match evalV b params with
       | .error e => .error e
       | .ok y => pyDiv x y)
  | .call fn args, params =>
    (match evalArgs args params with
     | .error e => .error e
     | .ok vs =>
       match lookupName fn params with
       | Option.none => .error .nameErr
       | some (.builtin b) => applyBuiltin b vs
       | some _ => .error .typeErr)

/-- Left-to-right evaluation of call arguments. -/
def evalArgs : VArgs → List (String × PyVal) → Except EvalErr (List PyVal)
  | .nil, _ => .ok []
  | .cons e es, params =>
    (match evalV e params with
     | .error err => .error err
     | .ok v =>
       match evalArgs es params with
       | .error err => .error err
       | .ok vs => .ok (v :: vs))

end

/-- V.resolve (visualBuilder.py lines 23-27): eval the expression and map
every raised exception to the sentinel (Python None, modelled as
Option.none).  An eval result that is the None object is that same
sentinel, exactly as in Python where the two cases are
indistinguishable. -/
def vResolve (e : VExpr) (params : List (String × PyVal)) : Option PyVal :=
  match evalV e params with
  | .ok PyVal.none => Option.none
  | .ok v => some v
  | .error _ => Option.none

mutual

/-- Free names of an expression (the names whose lookup evaluation can
perform). -/
def freeNames : VExpr → List String
  | .lit _ => []
  | .name n => [n]
  | .add a b => freeNames a ++ freeNames b
  | .sub a b => freeNames a ++ freeNames b
  | .mul a b => freeNames a ++ freeNames b
  | .div a b => freeNames a ++ freeNames b
  | .call fn args => fn :: freeNamesArgs args

/-- Free names of an argument list. -/
def freeNamesArgs : VArgs → List String
  | .nil => []
  | .cons e es => freeNames e ++ freeNamesArgs es

end

/-! # Step recorder: variable capture (pythonTracer.py lines 9-38) -/

/-- One captured variable: the tagged type name and the converted value. -/
structure TypedVal where
  ty : String
  val : PyVal
deriving DecidableEq

def isNumOrBool : PyVal → Bool
  | .int _ => true
  | .float _ => true
  | .bool _ => true
  | _ => false

def isStrVal : PyVal → Bool
  | .str _ => true
  | _ => false

/-- Coercion applied to each member of a purely numeric-or-boolean list:
int(x) for ints and floats, 1/0 for bools. -/
def numListCoerce : PyVal → PyVal
  | .int n => .int n
  | .float q => .int (pyTruncRat q)
  | .bool b => .int (if b then 1 else 0)
  | v => v

/-- Dict assignment d[k] = v on an insertion-ordered association list:
replace in place when the key exists, append otherwise. -/
def tvSet : List (String × TypedVal) → String → TypedVal →
    List (String × TypedVal)
  | [], k, v => [(k, v)]
  | (k0, v0) :: t, k, v =>
    if k0 = k then (k, v) :: t else (k0, v0) :: tvSet t k v

/-- Conversion of one local variable, Option.none when the entry is
skipped (reserved prefix, excluded, or unrepresentable). -/
def capEntry (n : String) (v : PyVal) (excl : List String) : Option TypedVal :=
  if strStartsUnderscore n then Option.none
  else if excl.contains n then Option.none
  else
    match v with
    | .bool b => some ⟨"int", .int (if b then 1 else 0)⟩
    | .int i => some ⟨"int", .int i⟩
    | .float q => some ⟨"float", .float q⟩
    | .str s => some ⟨"str", .str s⟩
    | .list xs =>
      if plAll isNumOrBool xs then
        some ⟨"arr[int]", .list (plMap numListCoerce xs)⟩
      else if plAll isStrVal xs then
        some ⟨"arr[str]", .list xs⟩
      else Option.none
    | _ => Option.none

/-- One iteration of the capture loop: a skipped entry leaves the result
dict alone, a converted one is stored under its name. -/
def capStep (excl : List String) (acc : List (String × TypedVal))
    (kv : String × PyVal) : List (String × TypedVal) :=
  match capEntry kv.1 kv.2 excl with
  | some tv => tvSet acc kv.1 tv
  | Option.none => acc

/-- _capture_variables (pythonTracer.py lines 9-38): walk the frame's local
mapping in order, skip reserved-prefixed and excluded names, convert
scalars, type pure lists, silently drop everything else. -/
def captureVariables (locs : List (String × PyVal)) (excl : List String) :
    List (String × TypedVal) :=
  locs.foldl (capStep excl) []

/-! # Step recorder: run/trace state machine (pythonTracer.py lines 76-98) -/

/-- One recorded step. -/
structure TraceStep where
  line : Int
  vars : List (String × TypedVal)
  scope : List (String × Int)
deriving DecidableEq

/-- Where sys.stdout currently points. -/
inductive StdoutTarget where
  | original
  | buffer
deriving DecidableEq

/-- The module-level state of the tracer: the redirect target, whether the
settrace hook is installed, the accumulated step list and the output
buffer. -/
structure TracerState where
  stdoutT : StdoutTarget
  hookInstalled : Bool
  steps : List TraceStep
  buffer : String
deriving DecidableEq

/-- Abstract description of a run of the user's source text: whether it
compiles, and if so the steps the line hook records, the text printed to
stdout before the run ends, and the runtime error it raises, if any.  The
host compile/exec machinery itself is outside the embedding; a UserSource
records its observable behavior. -/
structure UserSource where
  compiles : Bool
  steps : List TraceStep
  output : String
  raises : Option String

/-- Errors escaping _run_with_trace. -/
inductive RunErr where
  | syntaxError
  | runtime (msg : String)
deriving DecidableEq

/-- Normal result of _run_with_trace. -/
structure RunResult where
  steps : List TraceStep
  output : String
deriving DecidableEq

/-- _run_with_trace (pythonTracer.py lines 76-98): reset the step list and
the capture buffer, point stdout at the buffer, then inside try/finally
compile (a compile failure propagates - there is no except clause), install
the hook, execute, and in the finally clause remove the hook and restore
stdout unconditionally. -/
def runWithTrace (src : UserSource) (st : TracerState) :
    Except RunErr RunResult × TracerState :=
  let st1 : TracerState := { st with steps := [], buffer := "" }
  let st2 : TracerState := { st1 with stdoutT := .buffer }
  if ¬ src.compiles then
    (.error .syntaxError,
     { st2 with hookInstalled := false, stdoutT := .original })
  else
    let st3 : TracerState := { st2 with hookInstalled := true }
    let st4 : TracerState := { st3 with steps := src.steps, buffer := src.output }
    match src.raises with
    | some msg =>
      (.error (.runtime msg),
       { st4 with hookInstalled := false, stdoutT := .original })
    | Option.none =>
      let st5 : TracerState := { st4 with hookInstalled := false, stdoutT := .original }
      (.ok { steps := st5.steps, output := st5.buffer }, st5)

/-! # Visual element model (visualBuilder.py lines 30-224)

Elements are mutable Python objects with identity; the embedding uses an
explicit heap (a list of element records indexed by allocation order) and
the process-wide registry VisualElem._registry as a list of element ids.
Ordinary instance attributes live in an insertion-ordered association list;
the private slots _parent, _children, _cells, _cell_bindings, _array_owner,
_length, _length_manually_set and _vb_id are record fields. -/

/-- The closed set of element kinds. -/
inductive ElemKind where
  | panel | rect | circle | arrow | label | var | array
deriving DecidableEq

/-- type(e).__name__ of each kind. -/
def kindName : ElemKind → String
  | .panel => "Panel"
  | .rect => "Rect"
  | .circle => "Circle"
  | .arrow => "Arrow"
  | .label => "Label"
  | .var => "Var"
  | .array => "Array"

def isShapeKind : ElemKind → Bool
  | .rect => true
  | .circle => true
  | .arrow => true
  | _ => false

/-- One entry of a structured (dict-valued) array cell: either a plain
value or a V binding object. -/
inductive CellEntry where
  | val (v : PyVal)
  | binding (e : VExpr)
deriving DecidableEq

/-- One array cell: a plain value, a property dict, or an owned shape
element (by id). -/
inductive Cell where
  | val (v : PyVal)
  | map (m : List (String × CellEntry))
  | elem (id : Nat)
deriving DecidableEq

/-- State of one visual element. -/
structure Elem where
  kind : ElemKind
  attrs : List (String × PyVal)
  bindings : List (String × VExpr)
  parent : Option Nat
  children : List Nat
  cells : List Cell
  cellBindings : List (Int × List (String × CellEntry))
  arrayOwner : Option Nat
  plength : PyVal
  lengthManuallySet : Bool
  vbId : Option String
deriving DecidableEq

/-- Ordered association update: replace in place if the key exists,
append otherwise (Python dict assignment semantics). -/
def alSet {κ β : Type} [DecidableEq κ] : List (κ × β) → κ → β → List (κ × β)
  | [], k, v => [(k, v)]
  | (k0, v0) :: t, k, v =>
    if k0 = k then (k, v) :: t else (k0, v0) :: alSet t k v

/-- Remove a key from an ordered association list (Python del). -/
def alErase {κ β : Type} [DecidableEq κ] : List (κ × β) → κ → List (κ × β)
  | [], _ => []
  | (k0, v0) :: t, k => if k0 = k then t else (k0, v0) :: alErase t k

/-- getattr(elem, n, d).  The Array length property reads the _length
slot; everything else reads the instance attribute dict. -/
def getAttrD (e : Elem) (n : String) (d : PyVal) : PyVal :=
  if e.kind = .array ∧ n = "length" then e.plength
  else
    match e.attrs.lookup n with
    | some v => v
    | Option.none => d

/-- object.__setattr__(elem, n, v): bypasses the V interception but still
triggers the Array length property setter, which records the value and
pins the length (visualBuilder.py lines 138-141). -/
def setAttrObj (e : Elem) (n : String) (v : PyVal) : Elem :=
  if e.kind = .array ∧ n = "length" then
    { e with plength := v, lengthManuallySet := true }
  else { e with attrs := alSet e.attrs n v }

/-- __setattr__ with a non-V value (visualBuilder.py lines 41-47): plain
store, then drop any binding registered under that name. -/
def setattrLit (e : Elem) (n : String) (v : PyVal) : Elem :=
  let e1 := setAttrObj e n v
  { e1 with bindings := alErase e1.bindings n }

/-- __setattr__ with a V value: register/overwrite the binding, leave the
concrete attribute untouched. -/
def setattrBind (e : Elem) (n : String) (ex : VExpr) : Elem :=
  { e with bindings := alSet e.bindings n ex }

def pvPos00 : PyVal := .tuple (plOf [.int 0, .int 0])

def pvColRect : PyVal := .tuple (plOf [.int 34, .int 197, .int 94])

def pvColCircle : PyVal := .tuple (plOf [.int 59, .int 130, .int 246])

def pvColArrow : PyVal := .tuple (plOf [.int 16, .int 185, .int 129])

/-- VisualElem.__init__ (lines 33-39) minus the registry append, which is
done at allocation. -/
def mkVisualElem (k : ElemKind) : Elem :=
  let e : Elem :=
    { kind := k, attrs := [], bindings := [], parent := Option.none,
      children := [], cells := [], cellBindings := [],
      arrayOwner := Option.none, plength := PyVal.int 0,
      lengthManuallySet := false, vbId := Option.none }
  let e := setattrLit e "position" pvPos00
  let e := setattrLit e "visible" (.bool true)
  setattrLit e "alpha" (.float 1)

def mkPanel (nm : String) : Elem :=
  let e := mkVisualElem .panel
  let e := setattrLit e "name" (.str nm)
  let e := setattrLit e "width" (.int 5)
  setattrLit e "height" (.int 5)

def mkRect (pos : PyVal) : Elem :=
  let e := mkVisualElem .rect
  let e := setattrLit e "position" pos
  let e := setattrLit e "width" (.int 1)
  let e := setattrLit e "height" (.int 1)
  let e := setattrLit e "color" pvColRect
  setattrLit e "visible" (.bool true)

def mkCircle (pos : PyVal) : Elem :=
  let e := mkVisualElem .circle
  let e := setattrLit e "position" pos
  let e := setattrLit e "width" (.int 1)
  let e := setattrLit e "height" (.int 1)
  let e := setattrLit e "color" pvColCircle
  setattrLit e "visible" (.bool true)

def mkArrow (pos : PyVal) : Elem :=
  let e := mkVisualElem .arrow
  let e := setattrLit e "position" pos
  let e := setattrLit e "width" (.int 1)
  let e := setattrLit e "height" (.int 1)
  let e := setattrLit e "color" pvColArrow
  let e := setattrLit e "orientation" (.str "up")
  let e := setattrLit e "rotation" (.int 0)
  setattrLit e "visible" (.bool true)

def mkLabel (lbl : String) : Elem :=
  let e := mkVisualElem .label
  let e := setattrLit e "label" (.str lbl)
  let e := setattrLit e "position" pvPos00
  let e := setattrLit e "width" (.int 1)
  let e := setattrLit e "height" (.int 1)
  let e := setattrLit e "font_size" (.int 14)
  let e := setattrLit e "color" PyVal.none
  setattrLit e "visible" (.bool true)

def mkVar (vn : String) : Elem :=
  let e := mkVisualElem .var
  let e := setattrLit e "var_name" (.str vn)
  let e := setattrLit e "position" pvPos00
  let e := setattrLit e "display" (.str "name-value")
  setattrLit e "visible" (.bool true)

/-- Array.__init__ (lines 120-132).  The _length slot is written directly
(not through the property), so the manual flag stays off; show_index tests
"element_type is None" while the cell default tests its truthiness. -/
def mkArray (vn : String) (et : PyVal) : Elem :=
  let e := mkVisualElem .array
  let e := setattrLit e "var_name" (.str vn)
  let e := setattrLit e "position" pvPos00
  let e := setattrLit e "direction" (.str "right")
  let e := { e with plength := PyVal.int 5, lengthManuallySet := false }
  let e := setattrLit e "visible" (.bool true)
  let e := setattrLit e "element_type" et
  let e := setattrLit e "show_index" (.bool (et = PyVal.none))
  { e with
    cells := List.replicate 5
      (if pyTruthy et then Cell.map [] else Cell.val (.int 0)) }

/-- Global state: the heap of live element records (index = id) and the
process-wide registry VisualElem._registry. -/
structure VBState where
  heap : List Elem
  registry : List Nat
deriving DecidableEq

def initVB : VBState := { heap := [], registry := [] }

def hget (s : VBState) (i : Nat) : Option Elem := s.heap[i]?

def hset (s : VBState) (i : Nat) (e : Elem) : VBState :=
  { s with heap := s.heap.set i e }

def hmodify (s : VBState) (i : Nat) (f : Elem → Elem) : VBState :=
  match s.heap[i]? with
  | some e => hset s i (f e)
  | Option.none => s

/-- Construction: append the element to the heap and its id to the
registry (VisualElem.__init__ line 39). -/
def allocElem (s : VBState) (e : Elem) : VBState :=
  { heap := s.heap ++ [e], registry := s.registry ++ [s.heap.length] }

/-- Panel.add (lines 68-71): append and take the parent pointer unless the
child is already present. -/
def panelAddF (s : VBState) (p c : Nat) : VBState :=
  match hget s p with
  | some pe =>
    if pe.kind = .panel then
      if c ∈ pe.children then s
      else
        let s1 := hset s p { pe with children := pe.children ++ [c] }
        hmodify s1 c (fun e => { e with parent := some p })
    else s
  | Option.none => s

/-- Panel.remove body (lines 73-76), also invoked on the shape's parent by
Array.__setitem__. -/
def panelRemoveF (s : VBState) (p c : Nat) : VBState :=
  match hget s p with
  | some pe =>
    if c ∈ pe.children then
      let s1 := hset s p { pe with children := pe.children.erase c }
      hmodify s1 c (fun e => { e with parent := Option.none })
    else s
  | Option.none => s

/-- The author-facing Panel.remove call (a method of Panel). -/
def panelRemoveOp (s : VBState) (p c : Nat) : VBState :=
  match hget s p with
  | some pe => if pe.kind = .panel then panelRemoveF s p c else s
  | Option.none => s

/-- Python list item assignment lst[idx] = c: negative indices wrap, out of
range raises IndexError (modelled as Option.none). -/
def pyListSet (l : List Cell) (idx : Int) (c : Cell) : Option (List Cell) :=
  if 0 ≤ idx then
    if idx < (l.length : Int) then some (l.set idx.toNat c) else Option.none
  else
    if 0 ≤ idx + (l.length : Int) then some (l.set (idx + l.length).toNat c)
    else Option.none

/-- The value assigned into an array cell. -/
inductive SetVal where
  | plain (v : PyVal)
  | dmap (entries : List (String × CellEntry))
  | ref (c : Nat)
deriving DecidableEq

/-- Errors raised by the element model (ValueError / IndexError carriers).
badTarget marks heap accesses that cannot occur for states built by the
operation language. -/
inductive VErr where
  | notShape
  | otherArray
  | otherPanel
  | indexError
  | badTarget
deriving DecidableEq

/-- Default cell content: empty dict for a truthy element_type, zero
otherwise (line 145). -/
def cellDefault (e : Elem) : Cell :=
  if pyTruthy (getAttrD e "element_type" PyVal.none) then Cell.map []
  else Cell.val (.int 0)

/-- Final store of the transferred shape into the cell list; an
out-of-range negative index raises IndexError here, after the ownership
mutations. -/
def absorbStore2 (s4 : VBState) (a : Nat) (arrNow : Elem) (index : Int)
    (c : Nat) : VBState × Option VErr :=
  match pyListSet arrNow.cells index (.elem c) with
  | some cells2 => (hset s4 a { arrNow with cells := cells2 }, Option.none)
  | Option.none => (s4, some .indexError)

/-- Tail of the ownership transfer: registry removal, owner mark, cell
store. -/
def arrayAbsorbOwn (s2 : VBState) (a : Nat) (index : Int) (c : Nat) :
    VBState × Option VErr :=
  let s3 : VBState := { s2 with registry := s2.registry.erase c }
  let s4 := hmodify s3 c (fun x => { x with arrayOwner := some a })
  match hget s4 a with
  | Option.none => (s4, some .badTarget)
  | some arrNow => absorbStore2 s4 a arrNow index c

/-- Ownership transfer for a shape value that passed the shape and
same-array checks (lines 158-171): clear a same-panel parent or fail on a
foreign one, drop the shape from the registry, record the owning array,
store the cell. -/
def arrayAbsorb (s1 : VBState) (a : Nat) (arrGrown : Elem) (index : Int)
    (c : Nat) (ce : Elem) : VBState × Option VErr :=
  match ce.parent with
  | some p =>
    if arrGrown.parent = some p then
      arrayAbsorbOwn (panelRemoveF s1 p c) a index c
    else (s1, some .otherPanel)
  | Option.none => arrayAbsorbOwn s1 a index c

/-- Comparison of the recorded owner against this array (line 156). -/
def arraySetRefOwnChk (s1 : VBState) (a : Nat) (grown : Elem) (index : Int)
    (c : Nat) (ce : Elem) (o : Nat) : VBState × Option VErr :=
  if o ≠ a then (s1, some .otherArray)
  else arrayAbsorb s1 a grown index c ce

/-- Already-owned check of the shape branch (lines 155-157): a different
owning array is an error, the same array may be re-assigned. -/
def arraySetRefOwn (s1 : VBState) (a : Nat) (grown : Elem) (index : Int)
    (c : Nat) (ce : Elem) : VBState × Option VErr :=
  match ce.arrayOwner with
  | some o => arraySetRefOwnChk s1 a grown index c ce o
  | Option.none => arrayAbsorb s1 a grown index c ce

/-- Shape-kind check of the shape branch (lines 151-154). -/
def arraySetRefCk (s1 : VBState) (a : Nat) (grown : Elem) (index : Int)
    (c : Nat) (ce : Elem) : VBState × Option VErr :=
  if ¬ isShapeKind ce.kind then (s1, some .notShape)
  else arraySetRefOwn s1 a grown index c ce

/-- The shape branch of Array.__setitem__ (lines 150-171): value checks,
ownership transfer, cell store. -/
def arraySetRef (s1 : VBState) (a : Nat) (grown : Elem) (index : Int)
    (c : Nat) : VBState × Option VErr :=
  match hget s1 c with
  | Option.none => (s1, some .badTarget)
  | some ce => arraySetRefCk s1 a grown index c ce

/-- The array object after the dict branch has maintained _cell_bindings
(lines 173-179): a dict with V values is registered under the raw index,
a plain dict clears a stale registration. -/
def dictGrown (grown : Elem) (index : Int)
    (entries : List (String × CellEntry)) : Elem :=
  if entries.any (fun kv => match kv.2 with | .binding _ => true | .val _ => false)
  then { grown with cellBindings := alSet grown.cellBindings index entries }
  else if (grown.cellBindings.lookup index).isSome then
    { grown with cellBindings := alErase grown.cellBindings index }
  else grown

/-- The dict branch of Array.__setitem__: bindings bookkeeping, then the
cell store (which can still raise IndexError for a negative index). -/
def arraySetDict (s1 : VBState) (a : Nat) (grown : Elem) (index : Int)
    (entries : List (String × CellEntry)) : VBState × Option VErr :=
  match pyListSet (dictGrown grown index entries).cells index (.map entries) with
  | some cells2 =>
    (hset s1 a { dictGrown grown index entries with cells := cells2 }, Option.none)
  | Option.none =>
    (hset s1 a (dictGrown grown index entries), some .indexError)

/-- The plain-value branch of Array.__setitem__ (line 180). -/
def arraySetPlain (s1 : VBState) (a : Nat) (grown : Elem) (index : Int)
    (pv : PyVal) : VBState × Option VErr :=
  match pyListSet grown.cells index (.val pv) with
  | some cells2 => (hset s1 a { grown with cells := cells2 }, Option.none)
  | Option.none => (s1, some .indexError)

/-- The auto-grow step of Array.__setitem__ (lines 146-148): extend the
cell list with type-appropriate defaults up to the index and bump the
length slot (without pinning it). -/
def growElem (arr0 : Elem) (index : Int) : Elem :=
  let cells2 := arr0.cells ++
    List.replicate (index + 1 - (arr0.cells.length : Int)).toNat (cellDefault arr0)
  { arr0 with cells := cells2, plength := .int cells2.length }

/-- Array.__setitem__ (lines 143-180).  The cell list is grown (and the
length bumped) before any ownership check, so a failed assignment leaves
the array extended. -/
def arraySetitem (s : VBState) (a : Nat) (index : Int) (v : SetVal) :
    VBState × Option VErr :=
  match hget s a with
  | Option.none => (s, some .badTarget)
  | some arr0 =>
    let grown : Elem :=
      if ((arr0.cells.length : Int)) ≤ index then growElem arr0 index else arr0
    let s1 := hset s a grown
    match v with
    | .ref c => arraySetRef s1 a grown index c
    | .dmap entries => arraySetDict s1 a grown index entries
    | .plain pv => arraySetPlain s1 a grown index pv

/-- VisualElem.update (lines 49-57): resolve each registered binding and
overwrite the concrete attribute through object.__setattr__ when the
result is not the sentinel. -/
def genericUpdate (e : Elem) (params : List (String × PyVal)) : Elem :=
  e.bindings.foldl
    (fun acc kv =>
      match vResolve kv.2 params with
      | some v => setAttrObj acc kv.1 v
      | Option.none => acc)
    e

/-- One resolved structured-cell dict: V entries are re-resolved from
scratch (a sentinel result is stored as None), plain entries pass through
(lines 198-200). -/
def resolveCellMap (orig : List (String × CellEntry))
    (params : List (String × PyVal)) : List (String × CellEntry) :=
  orig.map
    (fun kv =>
      match kv.2 with
      | .binding ex => (kv.1, CellEntry.val ((vResolve ex params).getD PyVal.none))
      | .val v => (kv.1, CellEntry.val v))

/-- Array.update (lines 187-201): auto-track the length from a
sequence-valued source variable unless pinned, run the generic binding
pass, update owned shape cells, then rebuild every structured cell from
its original bindings.  (Owned cells can only be shapes, so their update
is the generic one.)  A cell-bindings key stored under a negative
out-of-range index makes the final rebuild raise IndexError, which
propagates; the state at that moment is returned with the error. -/
def arrayUpdate (s : VBState) (i : Nat) (params : List (String × PyVal)) :
    VBState × Option VErr :=
  match hget s i with
  | Option.none => (s, some .badTarget)
  | some e =>
    let autoTrack : Bool :=
      !e.lengthManuallySet && pyTruthy (getAttrD e "var_name" PyVal.none) &&
        (match getAttrD e "var_name" PyVal.none with
         | .str vn => (params.lookup vn).isSome
         | _ => false)
    let e1 :=
      if autoTrack then
        match getAttrD e "var_name" PyVal.none with
        | .str vn =>
          (match params.lookup vn with
           | some (.list xs) => { e with plength := .int (plLen xs) }
           | some (.tuple xs) => { e with plength := .int (plLen xs) }
           | _ => e)
        | _ => e
      else e
    let e2 := genericUpdate e1 params
    let s1 := hset s i e2
    let s2 := e2.cells.foldl
      (fun st c =>
        match c with
        | .elem cid => hmodify st cid (fun ce => genericUpdate ce params)
        | _ => st)
      s1
    e2.cellBindings.foldl
      (fun acc kv =>
        match acc with
        | (st, some err) => (st, some err)
        | (st, Option.none) =>
          match hget st i with
          | Option.none => (st, some .badTarget)
          | some arrNow =>
            if kv.1 < (arrNow.cells.length : Int) then
              match pyListSet arrNow.cells kv.1 (.map (resolveCellMap kv.2 params)) with
              | some cells2 => (hset st i { arrNow with cells := cells2 }, Option.none)
              | Option.none => (st, some .indexError)
            else (st, Option.none))
      (s2, Option.none)

/-- Per-element dispatch of the binding update driver. -/
def elemUpdate (s : VBState) (i : Nat) (params : List (String × PyVal)) :
    VBState × Option VErr :=
  match hget s i with
  | Option.none => (s, some .badTarget)
  | some e =>
    if e.kind = .array then arrayUpdate s i params
    else (hset s i (genericUpdate e params), Option.none)

/-! # Scene serializer (visualBuilder.py lines 226-378)

Serialized records are insertion-ordered string-keyed dicts whose values
are themselves PyVals (ints, strings, bools, rationals, lists, nested
dicts for array cell values); json.dumps of the record list is a faithful
deterministic rendering and is not modelled further. -/

/-- Deterministic rendering used for str() on the values the serializer
stringifies; non-string reprs are abstracted by fixed tags. -/
def pyStr : PyVal → String
  | .str s => s
  | .int n => toString n
  | .bool b => if b then "True" else "False"
  | .float _ => "<float>"
  | .none => "None"
  | .list _ => "<list>"
  | .tuple _ => "<tuple>"
  | .dict _ => "<dict>"
  | .builtin fn => "<builtin " ++ fn ++ ">"

/-- Python int() narrowed to an Int result; everything non-convertible is
an error (uncaught ValueError/TypeError). -/
def pyIntE (v : PyVal) : Except Unit Int :=
  match pyIntConv v with
  | .ok (.int n) => .ok n
  | _ => .error ()

/-- First two members of a list/tuple of length at least 2. -/
def firstTwo? (v : PyVal) : Option (PyVal × PyVal) :=
  match v with
  | .list xs =>
    (match plGet? xs 0, plGet? xs 1 with
     | some a, some b => some (a, b)
     | _, _ => Option.none)
  | .tuple xs =>
    (match plGet? xs 0, plGet? xs 1 with
     | some a, some b => some (a, b)
     | _, _ => Option.none)
  | _ => Option.none

/-- First three members of a list/tuple of length at least 3. -/
def firstThree? (v : PyVal) : Option (PyVal × PyVal × PyVal) :=
  match v with
  | .list xs =>
    (match plGet? xs 0, plGet? xs 1, plGet? xs 2 with
     | some a, some b, some c => some (a, b, c)
     | _, _, _ => Option.none)
  | .tuple xs =>
    (match plGet? xs 0, plGet? xs 1, plGet? xs 2 with
     | some a, some b, some c => some (a, b, c)
     | _, _, _ => Option.none)
  | _ => Option.none

/-- int() applied to the three members of a colour triple (unguarded in the
source: a bad member raises out of the serializer). -/
def intTriple (a b c : PyVal) : Except Unit PyVal := do
  let x ← pyIntE a
  let y ← pyIntE b
  let z ← pyIntE c
  pure (.list (plOf [.int x, .int y, .int z]))

def pdOf : List (String × PyVal) → PyDict
  | [] => .nil
  | kv :: t => .cons kv.1 kv.2 (pdOf t)

/-- Reduced record for a shape owned by an array cell (lines 288-310). -/
def serializeShapeCell (s : VBState) (cid : Nat) : Except Unit PyVal :=
  match hget s cid with
  | Option.none => .error ()
  | some ce => do
    let tyFields ←
      match ce.kind with
      | .circle => pure [("type", PyVal.str "circle")]
      | .arrow => do
        let r ← pyIntE (getAttrD ce "rotation" (.int 0))
        pure [("type", PyVal.str "arrow"),
              ("orientation", PyVal.str (pyStr (getAttrD ce "orientation" (.str "up")))),
              ("rotation", PyVal.int r)]
      | .rect => pure [("type", PyVal.str "rect")]
      | _ => pure ([] : List (String × PyVal))
    let colorFields ←
      match firstThree? (getAttrD ce "color" PyVal.none) with
      | some (a, b, c) => do
        let t ← intTriple a b c
        pure [("color", t)]
      | Option.none => pure ([] : List (String × PyVal))
    let w ← pyIntE (getAttrD ce "width" (.int 1))
    let h ← pyIntE (getAttrD ce "height" (.int 1))
    let aq : Rat :=
      match pyFloatConv (getAttrD ce "alpha" (.float 1)) with
      | .ok (.float q) => q
      | _ => 1
    pure (.dict (pdOf (tyFields ++ colorFields ++
      [("width", .int w), ("height", .int h), ("alpha", .float aq),
       ("visible", .bool (pyTruthy (getAttrD ce "visible" (.bool true))))])))

/-- Record for a structured cell (lines 311-322): colour only when it is a
usable triple, orientation when present and not None, rotation through an
unguarded int(). -/
def serializeMapCell (m : List (String × CellEntry)) : Except Unit PyVal := do
  let colorFields ←
    match m.lookup "color" with
    | some (.val v) =>
      (match firstThree? v with
       | some (a, b, c) => do
         let t ← intTriple a b c
         pure [("color", t)]
       | Option.none => pure ([] : List (String × PyVal)))
    | some (.binding _) => pure ([] : List (String × PyVal))
    | Option.none => pure ([] : List (String × PyVal))
  let oriFields : List (String × PyVal) :=
    match m.lookup "orientation" with
    | some (.val PyVal.none) => []
    | some (.val v) => [("orientation", .str (pyStr v))]
    | some (.binding _) => [("orientation", .str "<V>")]
    | Option.none => []
  let rotFields ←
    match m.lookup "rotation" with
    | some (.val PyVal.none) => pure ([] : List (String × PyVal))
    | some (.val v) => do
      let r ← pyIntE v
      pure [("rotation", PyVal.int r)]
    | some (.binding _) => .error ()
    | Option.none => pure ([] : List (String × PyVal))
  pure (.dict (pdOf (colorFields ++ oriFields ++ rotFields)))

/-- Flattened serialization of one array cell (lines 287-324): owned shapes
reduce, dicts reduce, scalars pass through unchanged. -/
def serializeCell (s : VBState) : Cell → Except Unit PyVal
  | .val v => pure v
  | .map m => serializeMapCell m
  | .elem cid => serializeShapeCell s cid

/-- The panelId cross-reference (lines 352-353): present when the element
has a parent that carries a _vb_id. -/
def panelIdFields (s : VBState) (e : Elem) : List (String × PyVal) :=
  match e.parent with
  | some p =>
    (match hget s p with
     | some pe =>
       (match pe.vbId with
        | some vid => [("panelId", .str vid)]
        | Option.none => [])
     | Option.none => [])
  | Option.none => []

/-- _serialize_elem (lines 226-351): the record without the panelId
cross-reference, which _serialize_visual_builder appends afterwards. -/
def serializeElemBody (s : VBState) (e : Elem) :
    Except Unit (List (String × PyVal)) := do
  let pos := getAttrD e "position" pvPos00
  let rc : Int × Int :=
    match firstTwo? pos with
    | some (p0, p1) =>
      (match pyIntE p0, pyIntE p1 with
       | .ok r, .ok c => (r, c)
       | _, _ => (0, 0))
    | Option.none => (0, 0)
  let alphaQ : Rat :=
    match pyFloatConv (getAttrD e "alpha" (.float 1)) with
    | .ok (.float q) => q
    | _ => 1
  let out0 : List (String × PyVal) :=
    [("type", PyVal.none),
     ("position", .list (plOf [.int rc.1, .int rc.2])),
     ("visible", getAttrD e "visible" (.bool true)),
     ("alpha", .float alphaQ)]
  let body ←
    match e.kind with
    | .panel => do
      let w ← pyIntE (getAttrD e "width" (.int 5))
      let h ← pyIntE (getAttrD e "height" (.int 5))
      pure (alSet out0 "type" (.str "panel") ++
        [("name", .str (pyStr (getAttrD e "name" (.str "Panel")))),
         ("width", .int w), ("height", .int h)])
    | .rect => do
      let w ← pyIntE (getAttrD e "width" (.int 1))
      let h ← pyIntE (getAttrD e "height" (.int 1))
      let colorV ←
        match firstThree? (getAttrD e "color" pvColRect) with
        | some (a, b, c) => intTriple a b c
        | Option.none => pure (PyVal.list (plOf [.int 34, .int 197, .int 94]))
      pure (alSet out0 "type" (.str "rect") ++
        [("width", .int w), ("height", .int h), ("color", colorV)])
    | .label => do
      let w ← pyIntE (getAttrD e "width" (.int 1))
      let h ← pyIntE (getAttrD e "height" (.int 1))
      let fs ← pyIntE (getAttrD e "font_size" (.int 14))
      let colorFields ←
        match firstThree? (getAttrD e "color" PyVal.none) with
        | some (a, b, c) => do
          let t ← intTriple a b c
          pure [("color", t)]
        | Option.none => pure ([] : List (String × PyVal))
      pure (alSet out0 "type" (.str "label") ++
        [("label", .str (pyStr (getAttrD e "label" (.str "")))),
         ("width", .int w), ("height", .int h), ("fontSize", .int fs)] ++
        colorFields)
    | .var =>
      pure (alSet out0 "type" (.str "var") ++
        [("varName", .str (pyStr (getAttrD e "var_name" (.str "")))),
         ("display", .str (pyStr (getAttrD e "display" (.str "name-value"))))])
    | .array => do
      let len ← pyIntE (getAttrD e "length" (.int 5))
      let et := getAttrD e "element_type" PyVal.none
      let etFields : List (String × PyVal) :=
        if pyTruthy et then [("elementType", .str (pyStr et))] else []
      let vals ← e.cells.mapM (serializeCell s)
      pure (alSet out0 "type" (.str "array") ++
        [("varName", .str (pyStr (getAttrD e "var_name" (.str "")))),
         ("direction", .str (pyStr (getAttrD e "direction" (.str "right")))),
         ("length", .int len),
         ("showIndex", .bool (pyTruthy (getAttrD e "show_index" (.bool true))))] ++
        etFields ++ [("values", .list (plOf vals))])
    | .circle => do
      let w ← pyIntE (getAttrD e "width" (.int 1))
      let h ← pyIntE (getAttrD e "height" (.int 1))
      let colorV ←
        match firstThree? (getAttrD e "color" pvColCircle) with
        | some (a, b, c) => intTriple a b c
        | Option.none => pure (PyVal.list (plOf [.int 59, .int 130, .int 246]))
      pure (alSet out0 "type" (.str "circle") ++
        [("width", .int w), ("height", .int h), ("color", colorV)])
    | .arrow => do
      let w ← pyIntE (getAttrD e "width" (.int 1))
      let h ← pyIntE (getAttrD e "height" (.int 1))
      let colorV ←
        match firstThree? (getAttrD e "color" pvColArrow) with
        | some (a, b, c) => intTriple a b c
        | Option.none => pure (PyVal.list (plOf [.int 16, .int 185, .int 129]))
      let r ← pyIntE (getAttrD e "rotation" (.int 0))
      pure (alSet out0 "type" (.str "arrow") ++
        [("width", .int w), ("height", .int h), ("color", colorV),
         ("orientation", .str (pyStr (getAttrD e "orientation" (.str "up")))),
         ("rotation", .int r)])
  pure body

/-- _serialize_elem (lines 226-355): the record plus the panelId
cross-reference (lines 352-354). -/
def serializeElem (s : VBState) (e : Elem) :
    Except Unit (List (String × PyVal)) := do
  let body ← serializeElemBody s e
  pure (body ++ panelIdFields s e)

/-- Sort key of _serialize_visual_builder's ordering pass (line 373):
panels rank 0, everything else rank 1, then the class name. -/
def elemKey (e : Elem) : Nat × String :=
  (if e.kind = .panel then 0 else 1, kindName e.kind)

/-- Strict lexicographic comparison of sort keys. -/
def keyLtB (x y : Nat × String) : Bool :=
  decide (x.1 < y.1) || (decide (x.1 = y.1) && pyStrLt x.2 y.2)

/-- Stable insertion of x after every element with a strictly smaller key
and before the first element whose key is not smaller. -/
def sInsert {α : Type} (k : α → Nat × String) (x : α) : List α → List α
  | [] => [x]
  | y :: ys => if keyLtB (k y) (k x) then y :: sInsert k x ys else x :: y :: ys

/-- Stable sort by key (extensionally Python's sorted with a key
function). -/
def sSort {α : Type} (k : α → Nat × String) : List α → List α
  | [] => []
  | x :: xs => sInsert k x (sSort k xs)

/-- Identifier text: a panel/elem tag and the 1-based position of the
element in the registry (the source uses one shared counter for both
tags). -/
def vbIdStr (k : ElemKind) (num : Nat) : String :=
  (if k = .panel then "panel" else "elem") ++ "-" ++ toString num

/-- The id-assignment loop of _serialize_visual_builder (lines 367-371):
every registry element receives a fresh _vb_id for this pass. -/
def assignIds (s : VBState) : VBState :=
  s.registry.enum.foldl
    (fun st pr =>
      hmodify st pr.2 (fun e => { e with vbId := some (vbIdStr e.kind (pr.1 + 1)) }))
    s

/-- _serialize_visual_builder (lines 358-378): assign ids, sort panels
first then by kind name (stable), serialize each element; returns the
record list and the mutated state. -/
def serializeVB (s : VBState) :
    Except Unit (List (List (String × PyVal))) × VBState :=
  let s1 := assignIds s
  let elems := s1.registry.filterMap (fun i => hget s1 i)
  let sorted := sSort elemKey elems
  (sorted.mapM (serializeElem s1), s1)

/-! # The operation language

One constructor per author-facing mutation of the model (spec section 6:
construct, set literal property, set bound property, add/remove child,
index-assign a cell), plus the per-element binding update and a
serialization pass.  Errors raised by an operation propagate to the
author's program but the mutations performed before the raise persist, so
the post-state of a failing operation is the partially mutated state. -/

inductive VOp where
  | newPanel (nm : String)
  | newRect (pos : PyVal)
  | newCircle (pos : PyVal)
  | newArrow (pos : PyVal)
  | newLabel (lbl : String)
  | newVar (vn : String)
  | newArray (vn : String) (et : PyVal)
  | setL (i : Nat) (n : String) (v : PyVal)
  | setB (i : Nat) (n : String) (ex : VExpr)
  | panelAdd (p c : Nat)
  | panelRemove (p c : Nat)
  | arraySet (a : Nat) (idx : Int) (v : SetVal)
  | updateStep (i : Nat) (params : List (String × PyVal))
  | serializePass
deriving DecidableEq

def applyOp (s : VBState) : VOp → VBState
  | .newPanel nm => allocElem s (mkPanel nm)
  | .newRect pos => allocElem s (mkRect pos)
  | .newCircle pos => allocElem s (mkCircle pos)
  | .newArrow pos => allocElem s (mkArrow pos)
  | .newLabel lbl => allocElem s (mkLabel lbl)
  | .newVar vn => allocElem s (mkVar vn)
  | .newArray vn et => allocElem s (mkArray vn et)
  | .setL i n v => hmodify s i (fun e => setattrLit e n v)
  | .setB i n ex => hmodify s i (fun e => setattrBind e n ex)
  | .panelAdd p c => panelAddF s p c
  | .panelRemove p c => panelRemoveOp s p c
  | .arraySet a idx v => (arraySetitem s a idx v).1
  | .updateStep i params => (elemUpdate s i params).1
  | .serializePass => (serializeVB s).2

def runOps (ops : List VOp) : VBState := ops.foldl applyOp initVB

/-! # Ownership invariant -/

/-- A shape has at most one owner: never both a panel parent and an owning
array. -/
def shapeOwnInvB (s : VBState) : Bool :=
  s.heap.all
    (fun e => !(isShapeKind e.kind && e.parent.isSome && e.arrayOwner.isSome))

/-- Structural well-formedness used alongside the ownership invariant: a
set parent pointer targets a live element whose child list contains the
pointing element. -/
def parentMemB (s : VBState) : Bool :=
  (List.range s.heap.length).all
    (fun i =>
      match hget s i with
      | some e =>
        (match e.parent with
         | some p =>
           (match hget s p with
            | some pe => pe.children.contains i
            | Option.none => false)
         | Option.none => true)
      | Option.none => true)

/-- Guard of the amended ownership claim: Panel.add is only applied to
children that are not array-owned; every other operation is
unrestricted. -/
def opAllowedB (s : VBState) : VOp → Bool
  | .panelAdd _ c =>
    (match hget s c with
     | some e => e.arrayOwner.isNone
     | Option.none => true)
  | _ => true

/-- States reachable from the empty model through guarded operations. -/
inductive ReachG : VBState → Prop where
  | init : ReachG initVB
  | step (s : VBState) (o : VOp) : ReachG s → opAllowedB s o = true →
      ReachG (applyOp s o)

/-- Projection used when reasoning about Array.__setitem__: the cell list
and the length slot of an element. -/
def cellsLenP (e : Elem) : List Cell × PyVal := (e.cells, e.plength)

/-- Demonstration model for the cell-assignment claim: a panel owning both
an array and a rect. -/
def c6Demo : VBState := runOps
  [.newPanel "P", .newArray "arr" PyVal.none, .newRect pvPos00,
   .panelAdd 0 1, .panelAdd 0 2]

/-- Invariant carried through the folds of Array.update: the target slot
holds an array whose length slot already records the tracked value and
whose bindings leave the length property alone. -/
def arrTracked (i : Nat) (L : Int) (st : VBState) : Prop :=
  ∃ e2, hget st i = some e2 ∧ e2.kind = .array ∧ e2.plength = PyVal.int L ∧
    (∀ kv ∈ e2.bindings, kv.1 ≠ "length")

/-- The ownership-relevant projection of an element: class, parent
pointer, child list, owning array. -/
def frame4 (e : Elem) : ElemKind × Option Nat × List Nat × Option Nat :=
  (e.kind, e.parent, e.children, e.arrayOwner)

/-- Proposition form of the single-owner invariant. -/
def OwnP (s : VBState) : Prop :=
  ∀ i e, hget s i = some e → isShapeKind e.kind = true →
    e.parent = Option.none ∨ e.arrayOwner = Option.none

/-- Proposition form of the parent-membership well-formedness. -/
def PMemP (s : VBState) : Prop :=
  ∀ i e p, hget s i = some e → e.parent = some p →
    ∃ pe, hget s p = some pe ∧ i ∈ pe.children

/-- The sort key as a function of the element class alone. -/
def kindKey (k : ElemKind) : Nat × String := (if k = .panel then 0 else 1, kindName k)

/-! # Theorems

Infrastructure lemmas first, then one named theorem per claim (with its
counterexample and witness where applicable). -/

theorem hget_hset_self (s : VBState) (i : Nat) (e e0 : Elem)
    (h : hget s i = some e0) : hget (hset s i e) i = some e := by
  have hlt : i < s.heap.length := by
    by_contra hge
    simp [hget, List.getElem?_eq_none (Nat.le_of_not_lt hge)] at h
  simp [hget, hset, List.getElem?_set, hlt]

theorem hget_hset_ne (s : VBState) (i j : Nat) (e : Elem) (h : i ≠ j) :
    hget (hset s i e) j = hget s j := by
  simp [hget, hset, List.getElem?_set, h]

theorem hget_hmodify_self (s : VBState) (i : Nat) (f : Elem → Elem) (e0 : Elem)
    (h : hget s i = some e0) : hget (hmodify s i f) i = some (f e0) := by
  simp only [hmodify]
  rw [show s.heap[i]? = hget s i from rfl, h]
  exact hget_hset_self s i (f e0) e0 h

theorem hget_hmodify_ne (s : VBState) (i j : Nat) (f : Elem → Elem) (h : i ≠ j) :
    hget (hmodify s i f) j = hget s j := by
  simp only [hmodify]
  cases hv : s.heap[i]? with
  | none => rfl
  | some e => exact hget_hset_ne s i j (f e) h

theorem hget_registry (s : VBState) (r : List Nat) (j : Nat) :
    hget { s with registry := r } j = hget s j := rfl

theorem hset_registry (s : VBState) (i : Nat) (e : Elem) :
    (hset s i e).registry = s.registry := rfl

theorem hmodify_registry (s : VBState) (i : Nat) (f : Elem → Elem) :
    (hmodify s i f).registry = s.registry := by
  simp only [hmodify]
  cases s.heap[i]? <;> rfl

theorem hget_isSome_of_eq (s : VBState) (i : Nat) (e : Elem)
    (h : hget s i = some e) : i < s.heap.length := by
  by_contra hge
  simp [hget, List.getElem?_eq_none (Nat.le_of_not_lt hge)] at h

/-! ## Claim C3: behavior of the recorder on a syntax failure -/

/-- Claim C3 counterexample: on a source text that does not compile,
_run_with_trace does not return normally with an empty step sequence; the
compile call sits inside try/finally with no except clause, so the
SyntaxError escapes to the caller. -/
theorem c3_syntax_counterexample :
    (runWithTrace ⟨false, [], "", Option.none⟩ ⟨.original, false, [], ""⟩).1
      = .error .syntaxError := rfl

/-- Claim C3 (amended): on a source text that does not compile, the
recorder raises the syntax failure to the caller; the finally clause has
already removed the trace hook and restored the original stdout, and the
module-level step list and output buffer are left empty. -/
theorem c3_syntax_amended (src : UserSource) (st : TracerState)
    (h : src.compiles = false) :
    runWithTrace src st =
      (.error .syntaxError,
       { stdoutT := .original, hookInstalled := false, steps := [], buffer := "" }) := by
  simp [runWithTrace, h]

/-- Witness for c3_syntax_amended at a concrete non-compiling source and a
dirty initial tracer state. -/
theorem c3_syntax_witness :
    runWithTrace ⟨false, [⟨7, [], []⟩], "stale", some "boom"⟩
        ⟨.buffer, true, [⟨1, [], []⟩], "old"⟩ =
      (.error .syntaxError,
       { stdoutT := .original, hookInstalled := false, steps := [], buffer := "" }) :=
  c3_syntax_amended ⟨false, [⟨7, [], []⟩], "stale", some "boom"⟩
    ⟨.buffer, true, [⟨1, [], []⟩], "old"⟩ rfl

/-! ## Claim C8: cleanup on every exit path of the recorder -/

/-- Claim C8: on every exit path of _run_with_trace (normal completion,
runtime error from the traced program, and even the compile failure) the
final state has the original stdout restored and the trace hook removed,
and a runtime error raised by the user program reaches the caller as the
result only together with that cleaned-up state. -/
theorem c8_cleanup (src : UserSource) (st : TracerState) :
    ((runWithTrace src st).2.stdoutT = .original ∧
      (runWithTrace src st).2.hookInstalled = false) ∧
    (∀ msg, src.compiles = true → src.raises = some msg →
      runWithTrace src st =
        (.error (.runtime msg),
         { stdoutT := .original, hookInstalled := false,
           steps := src.steps, buffer := src.output })) := by
  constructor
  · by_cases hc : src.compiles
    · cases hr : src.raises <;> simp [runWithTrace, hc, hr]
    · simp [runWithTrace, hc]
  · intro msg hc hr
    simp [runWithTrace, hc, hr]

/-- Witness for c8_cleanup at a concrete raising source. -/
theorem c8_cleanup_witness :
    runWithTrace ⟨true, [⟨3, [], [("_main_", 3)]⟩], "out", some "ZeroDivisionError"⟩
        ⟨.original, false, [], ""⟩ =
      (.error (.runtime "ZeroDivisionError"),
       { stdoutT := .original, hookInstalled := false,
         steps := [⟨3, [], [("_main_", 3)]⟩], buffer := "out" }) :=
  (c8_cleanup ⟨true, [⟨3, [], [("_main_", 3)]⟩], "out", some "ZeroDivisionError"⟩
    ⟨.original, false, [], ""⟩).2 "ZeroDivisionError" rfl rfl

/-! ## Claim C5: the expression resolver's sandbox and error contract -/

mutual

theorem evalV_agree : ∀ (e : VExpr) (p q : List (String × PyVal)),
    (∀ n, n ∈ freeNames e → p.lookup n = q.lookup n) → evalV e p = evalV e q
  | .lit _, _, _, _ => rfl
  | .name n, p, q, h => by
    have hn := h n (by simp [freeNames])
    simp [evalV, lookupName, hn]
  | .add a b, p, q, h => by
    have ha := evalV_agree a p q (fun n hn => h n (by simp [freeNames]; exact Or.inl hn))
    have hb := evalV_agree b p q (fun n hn => h n (by simp [freeNames]; exact Or.inr hn))
    simp [evalV, ha, hb]
  | .sub a b, p, q, h => by
    have ha := evalV_agree a p q (fun n hn => h n (by simp [freeNames]; exact Or.inl hn))
    have hb := evalV_agree b p q (fun n hn => h n (by simp [freeNames]; exact Or.inr hn))
    simp [evalV, ha, hb]
  | .mul a b, p, q, h => by
    have ha := evalV_agree a p q (fun n hn => h n (by simp [freeNames]; exact Or.inl hn))
    have hb := evalV_agree b p q (fun n hn => h n (by simp [freeNames]; exact Or.inr hn))
    simp [evalV, ha, hb]
  | .div a b, p, q, h => by
    have ha := evalV_agree a p q (fun n hn => h n (by simp [freeNames]; exact Or.inl hn))
    have hb := evalV_agree b p q (fun n hn => h n (by simp [freeNames]; exact Or.inr hn))
    simp [evalV, ha, hb]
  | .call fn args, p, q, h => by
    have hargs := evalArgs_agree args p q
      (fun n hn => h n (by simp [freeNames]; exact Or.inr hn))
    have hfn := h fn (by simp [freeNames])
    simp [evalV, lookupName, hfn, hargs]

theorem evalArgs_agree : ∀ (es : VArgs) (p q : List (String × PyVal)),
    (∀ n, n ∈ freeNamesArgs es → p.lookup n = q.lookup n) →
    evalArgs es p = evalArgs es q
  | .nil, _, _, _ => rfl
  | .cons e t, p, q, h => by
    have he := evalV_agree e p q
      (fun n hn => h n (by simp [freeNamesArgs]; exact Or.inl hn))
    have ht := evalArgs_agree t p q
      (fun n hn => h n (by simp [freeNamesArgs]; exact Or.inr hn))
    simp [evalArgs, he, ht]

end

theorem vGlobals_domain (n : String) :
    (vGlobals.lookup n).isSome = true ↔ n = "__builtins__" ∨ n ∈ vGlobalNames := by
  simp only [vGlobals, vGlobalNames, List.lookup, List.mem_cons,
    List.not_mem_nil, or_false]
  repeat' split
  all_goals simp_all [beq_iff_eq]

/-- Claim C5: the resolver evaluates against exactly two scopes.  Part one:
a raised evaluation error of any kind becomes the sentinel, never an
exception (vResolve is a total function).  Part two: a successful non-None
evaluation passes through.  Part three: a name that is neither in the
supplied mapping nor in the whitelist resolves to the sentinel - there is
no ambient namespace.  Part four: the globals table holds exactly the
fourteen whitelisted helpers plus the empty __builtins__ dict.  Part five:
evaluation depends only on the supplied mapping (and the fixed whitelist):
mappings agreeing on the expression's free names evaluate identically. -/
theorem c5_resolver_sandbox :
    (∀ (e : VExpr) (params : List (String × PyVal)) (err : EvalErr),
        evalV e params = .error err → vResolve e params = Option.none) ∧
    (∀ (e : VExpr) (params : List (String × PyVal)) (v : PyVal),
        evalV e params = .ok v → v ≠ PyVal.none → vResolve e params = some v) ∧
    (∀ (n : String) (params : List (String × PyVal)),
        params.lookup n = Option.none →
        ¬ (n = "__builtins__" ∨ n ∈ vGlobalNames) →
        vResolve (.name n) params = Option.none) ∧
    (∀ n, (vGlobals.lookup n).isSome = true ↔ n = "__builtins__" ∨ n ∈ vGlobalNames) ∧
    (∀ (e : VExpr) (p q : List (String × PyVal)),
        (∀ n, n ∈ freeNames e → p.lookup n = q.lookup n) →
        evalV e p = evalV e q) := by
  refine ⟨?_, ?_, ?_, vGlobals_domain, evalV_agree⟩
  · intro e params err h
    simp [vResolve, h]
  · intro e params v h hv
    cases v <;> simp_all [vResolve]
  · intro n params hp hg
    have hgl : vGlobals.lookup n = Option.none := by
      cases hl : vGlobals.lookup n with
      | none => rfl
      | some v => exact absurd ((vGlobals_domain n).mp (by simp [hl])) hg
    simp [vResolve, evalV, lookupName, hp, hgl]

/-- Witness for c5_resolver_sandbox: the ambient builtin open is not
reachable, a division by zero becomes the sentinel, and a plain arithmetic
expression over the mapping succeeds. -/
theorem c5_resolver_sandbox_witness :
    vResolve (.name "open") [("x", .int 3)] = Option.none ∧
    vResolve (.div (.lit (.int 1)) (.lit (.int 0))) [] = Option.none ∧
    vResolve (.add (.name "x") (.lit (.int 1))) [("x", .int 3)] = some (.int 4) :=
  ⟨c5_resolver_sandbox.2.2.1 "open" [("x", .int 3)] rfl (by decide),
   c5_resolver_sandbox.1 (.div (.lit (.int 1)) (.lit (.int 0))) [] .zeroDiv rfl,
   c5_resolver_sandbox.2.1 (.add (.name "x") (.lit (.int 1))) [("x", .int 3)]
     (.int 4) rfl (by decide)⟩

/-! ## Claim C7: variable capture -/

theorem lookup_eq_none_of_not_mem_fst {β : Type} (l : List (String × β))
    (n : String) (h : n ∉ l.map Prod.fst) : l.lookup n = Option.none := by
  induction l with
  | nil => rfl
  | cons kv t ih =>
    simp only [List.map_cons, List.mem_cons] at h
    push_neg at h
    have hne : (n == kv.1) = false := by simp [h.1]
    simp [List.lookup, hne, ih h.2]

theorem tvSet_lookup_self (l : List (String × TypedVal)) (k : String)
    (v : TypedVal) : (tvSet l k v).lookup k = some v := by
  induction l with
  | nil => simp [tvSet, List.lookup]
  | cons kv t ih =>
    by_cases hk : kv.1 = k
    · simp [tvSet, hk, List.lookup]
    · have hne : (k == kv.1) = false := by simp [Ne.symm hk]
      simp [tvSet, hk, List.lookup, hne, ih]

theorem tvSet_lookup_ne (l : List (String × TypedVal)) (k n : String)
    (v : TypedVal) (h : n ≠ k) : (tvSet l k v).lookup n = l.lookup n := by
  induction l with
  | nil =>
    have hne : (n == k) = false := by simp [h]
    simp [tvSet, List.lookup, hne]
  | cons kv t ih =>
    by_cases hk : kv.1 = k
    · subst hk
      have hne : (n == kv.1) = false := by simp [h]
      simp [tvSet, List.lookup, hne]
    · by_cases hn : n = kv.1
      · simp [tvSet, hk, List.lookup, hn]
      · have hne : (n == kv.1) = false := by simp [hn]
        simp [tvSet, hk, List.lookup, hne, ih]

theorem capFold_lookup (locs : List (String × PyVal)) (excl : List String)
    (acc : List (String × TypedVal)) (n : String)
    (hnd : (locs.map Prod.fst).Nodup) :
    (locs.foldl (capStep excl) acc).lookup n =
      match locs.lookup n with
      | some v =>
        (match capEntry n v excl with
         | some tv => some tv
         | Option.none => acc.lookup n)
      | Option.none => acc.lookup n := by
  induction locs generalizing acc with
  | nil => simp
  | cons kv t ih =>
    obtain ⟨k0, v0⟩ := kv
    simp only [List.map_cons, List.nodup_cons] at hnd
    obtain ⟨hk0, hndt⟩ := hnd
    rw [List.foldl_cons, ih _ hndt]
    by_cases hn : n = k0
    · subst hn
      have ht : t.lookup n = Option.none := lookup_eq_none_of_not_mem_fst t n hk0
      rw [ht]
      have hl : ((n, v0) :: t).lookup n = some v0 := by simp [List.lookup]
      rw [hl]
      cases hce : capEntry n v0 excl with
      | none => simp [capStep, hce]
      | some tv => simp [capStep, hce, tvSet_lookup_self]
    · have hl : ((k0, v0) :: t).lookup n = t.lookup n := by
        have hne : (n == k0) = false := by simp [hn]
        simp [List.lookup, hne]
      rw [hl]
      have hacc : (capStep excl acc (k0, v0)).lookup n = acc.lookup n := by
        cases hce : capEntry k0 v0 excl with
        | none => simp [capStep, hce]
        | some tv => simp [capStep, hce, tvSet_lookup_ne _ _ _ _ hn]
      rw [hacc]

/-- Claim C7: the capture of one frame snapshot excludes reserved-prefixed
and explicitly excluded names, records booleans as int 0/1, types purely
numeric-or-boolean lists as arr[int] (members coerced to int) and purely
string lists as arr[str], and silently omits every other list. -/
theorem c7_capture (locs : List (String × PyVal)) (excl : List String)
    (hnd : (locs.map Prod.fst).Nodup) :
    (∀ n, strStartsUnderscore n = true ∨ excl.contains n = true →
        (captureVariables locs excl).lookup n = Option.none) ∧
    (∀ n b, locs.lookup n = some (.bool b) → strStartsUnderscore n = false →
        excl.contains n = false →
        (captureVariables locs excl).lookup n =
          some ⟨"int", .int (if b then 1 else 0)⟩) ∧
    (∀ n xs, locs.lookup n = some (.list xs) → strStartsUnderscore n = false →
        excl.contains n = false → plAll isNumOrBool xs = true →
        (captureVariables locs excl).lookup n =
          some ⟨"arr[int]", .list (plMap numListCoerce xs)⟩) ∧
    (∀ n xs, locs.lookup n = some (.list xs) → strStartsUnderscore n = false →
        excl.contains n = false → plAll isNumOrBool xs = false →
        plAll isStrVal xs = true →
        (captureVariables locs excl).lookup n =
          some ⟨"arr[str]", .list xs⟩) ∧
    (∀ n xs, locs.lookup n = some (.list xs) → strStartsUnderscore n = false →
        excl.contains n = false → plAll isNumOrBool xs = false →
        plAll isStrVal xs = false →
        (captureVariables locs excl).lookup n = Option.none) := by
  refine ⟨?_, ?_, ?_, ?_, ?_⟩
  · intro n h
    rw [captureVariables, capFold_lookup locs excl [] n hnd]
    cases hl : locs.lookup n with
    | none => rfl
    | some v =>
      rcases h with h1 | h2
      · simp [capEntry, h1]
      · by_cases hs : strStartsUnderscore n = true
        · simp [capEntry, hs]
        · simp at hs
          have h2' : n ∈ excl := by simpa using h2
          simp [capEntry, hs, h2']
  · intro n b hl hs he
    rw [captureVariables, capFold_lookup locs excl [] n hnd, hl]
    have he' : n ∉ excl := by simpa using he
    simp [capEntry, hs, he']
  · intro n xs hl hs he hall
    rw [captureVariables, capFold_lookup locs excl [] n hnd, hl]
    have he' : n ∉ excl := by simpa using he
    simp [capEntry, hs, he', hall]
  · intro n xs hl hs he hnum hstr
    rw [captureVariables, capFold_lookup locs excl [] n hnd, hl]
    have he' : n ∉ excl := by simpa using he
    simp [capEntry, hs, he', hnum, hstr]
  · intro n xs hl hs he hnum hstr
    rw [captureVariables, capFold_lookup locs excl [] n hnd, hl]
    have he' : n ∉ excl := by simpa using he
    simp [capEntry, hs, he', hnum, hstr]

/-- Witness for c7_capture on a concrete frame: a reserved-prefixed name
and an excluded name are dropped, a boolean becomes int 1, a numeric list
(with a float and a bool member) becomes arr[int], a string list becomes
arr[str], and a mixed list is silently omitted. -/
theorem c7_capture_witness :
    (captureVariables
        [("flag", .bool true), ("_h", .int 5), ("secret", .int 1),
         ("nums", .list (plOf [.int 1, .bool false, .float (3 : Rat)])),
         ("strs", .list (plOf [.str "a", .str "b"])),
         ("mix", .list (plOf [.int 1, .str "a"]))]
        ["secret"]).lookup "flag" = some ⟨"int", .int 1⟩ ∧
    (captureVariables
        [("flag", .bool true), ("_h", .int 5), ("secret", .int 1),
         ("nums", .list (plOf [.int 1, .bool false, .float (3 : Rat)])),
         ("strs", .list (plOf [.str "a", .str "b"])),
         ("mix", .list (plOf [.int 1, .str "a"]))]
        ["secret"]).lookup "_h" = Option.none ∧
    (captureVariables
        [("flag", .bool true), ("_h", .int 5), ("secret", .int 1),
         ("nums", .list (plOf [.int 1, .bool false, .float (3 : Rat)])),
         ("strs", .list (plOf [.str "a", .str "b"])),
         ("mix", .list (plOf [.int 1, .str "a"]))]
        ["secret"]).lookup "secret" = Option.none ∧
    (captureVariables
        [("flag", .bool true), ("_h", .int 5), ("secret", .int 1),
         ("nums", .list (plOf [.int 1, .bool false, .float (3 : Rat)])),
         ("strs", .list (plOf [.str "a", .str "b"])),
         ("mix", .list (plOf [.int 1, .str "a"]))]
        ["secret"]).lookup "nums" =
      some ⟨"arr[int]", .list (plOf [.int 1, .int 0, .int 3])⟩ ∧
    (captureVariables
        [("flag", .bool true), ("_h", .int 5), ("secret", .int 1),
         ("nums", .list (plOf [.int 1, .bool false, .float (3 : Rat)])),
         ("strs", .list (plOf [.str "a", .str "b"])),
         ("mix", .list (plOf [.int 1, .str "a"]))]
        ["secret"]).lookup "mix" = Option.none := by
  have h := c7_capture
    [("flag", .bool true), ("_h", .int 5), ("secret", .int 1),
     ("nums", .list (plOf [.int 1, .bool false, .float (3 : Rat)])),
     ("strs", .list (plOf [.str "a", .str "b"])),
     ("mix", .list (plOf [.int 1, .str "a"]))]
    ["secret"] (by decide)
  refine ⟨h.2.1 "flag" true rfl rfl rfl, ?_, ?_, ?_, ?_⟩
  · exact h.1 "_h" (Or.inl rfl)
  · exact h.1 "secret" (Or.inr rfl)
  · have := h.2.2.1 "nums" (plOf [.int 1, .bool false, .float (3 : Rat)])
      rfl rfl rfl (by decide)
    simpa using this
  · exact h.2.2.2.2 "mix" (plOf [.int 1, .str "a"]) rfl rfl rfl
      (by decide) (by decide)

/-! ## Claim C10: failed cell assignments still grow the array -/

theorem hmodify_of_none (s : VBState) (i : Nat) (f : Elem → Elem)
    (h : hget s i = Option.none) : hmodify s i f = s := by
  simp only [hmodify]
  rw [show s.heap[i]? = hget s i from rfl, h]

theorem hget_map_hmodify {γ : Type} (s : VBState) (i a : Nat) (f : Elem → Elem)
    (g : Elem → γ) (hf : ∀ e, g (f e) = g e) :
    (hget (hmodify s i f) a).map g = (hget s a).map g := by
  by_cases hia : i = a
  · subst hia
    cases h : hget s i with
    | none => rw [hmodify_of_none s i f h, h]
    | some e =>
      rw [hget_hmodify_self s i f e h]
      simp [hf]
  · rw [hget_hmodify_ne s i a f hia]

theorem hget_map_hset {γ : Type} (s : VBState) (p a : Nat) (pe e' : Elem)
    (hp : hget s p = some pe) (g : Elem → γ) (hge : g e' = g pe) :
    (hget (hset s p e') a).map g = (hget s a).map g := by
  by_cases hpa : p = a
  · subst hpa
    rw [hget_hset_self s p e' pe hp, hp]
    simp [hge]
  · rw [hget_hset_ne s p a e' hpa]

theorem hget_map_panelRemoveF {γ : Type} (s : VBState) (p c a : Nat)
    (g : Elem → γ)
    (hg1 : ∀ e ch, g { e with children := ch } = g e)
    (hg2 : ∀ e pa, g { e with parent := pa } = g e) :
    (hget (panelRemoveF s p c) a).map g = (hget s a).map g := by
  cases hp : hget s p with
  | none =>
    unfold panelRemoveF
    simp only [hp]
  | some pe =>
    unfold panelRemoveF
    simp only [hp]
    by_cases hc : c ∈ pe.children
    · rw [if_pos hc]
      rw [hget_map_hmodify _ c a _ g (fun e => hg2 e Option.none),
        hget_map_hset s p a pe _ hp g (hg1 pe (pe.children.erase c))]
    · rw [if_neg hc]


theorem cellsLenP_dictGrown (grown : Elem) (index : Int)
    (entries : List (String × CellEntry)) :
    cellsLenP (dictGrown grown index entries) = cellsLenP grown := by
  unfold dictGrown
  split
  · simp [cellsLenP]
  · split <;> simp [cellsLenP]

theorem arraySetPlain_err (s1 : VBState) (a : Nat) (grown : Elem) (index : Int)
    (pv : PyVal) (err : VErr) (x : List Cell × PyVal)
    (hP : (hget s1 a).map cellsLenP = some x)
    (herr : (arraySetPlain s1 a grown index pv).2 = some err) :
    (hget (arraySetPlain s1 a grown index pv).1 a).map cellsLenP = some x := by
  unfold arraySetPlain at herr ⊢
  cases hls : pyListSet grown.cells index (.val pv) with
  | some cells2 => simp only [hls] at herr; exact absurd herr (by simp)
  | none => exact hP

theorem arraySetDict_err (s1 : VBState) (a : Nat) (grown : Elem) (index : Int)
    (entries : List (String × CellEntry)) (err : VErr) (g0 : Elem)
    (hs : hget s1 a = some g0)
    (herr : (arraySetDict s1 a grown index entries).2 = some err) :
    (hget (arraySetDict s1 a grown index entries).1 a).map cellsLenP =
      some (cellsLenP grown) := by
  unfold arraySetDict at herr ⊢
  cases hls : pyListSet (dictGrown grown index entries).cells index (.map entries) with
  | some cells2 => simp only [hls] at herr; exact absurd herr (by simp)
  | none =>
    rw [show (hset s1 a (dictGrown grown index entries), some VErr.indexError).1
        = hset s1 a (dictGrown grown index entries) from rfl]
    rw [hget_hset_self s1 a _ g0 hs]
    simp [cellsLenP_dictGrown]

theorem arrayAbsorbOwn_cellsLenP (s2 : VBState) (a : Nat) (index : Int)
    (c : Nat) (err : VErr) (x : List Cell × PyVal)
    (hP : (hget s2 a).map cellsLenP = some x)
    (herr : (arrayAbsorbOwn s2 a index c).2 = some err) :
    (hget (arrayAbsorbOwn s2 a index c).1 a).map cellsLenP = some x := by
  have hstore : ∀ (s4 : VBState) (arrNow : Elem),
      (hget s4 a).map cellsLenP = some x →
      (absorbStore2 s4 a arrNow index c).2 = some err →
      (hget (absorbStore2 s4 a arrNow index c).1 a).map cellsLenP = some x := by
    intro s4 arrNow hP4 herr4
    unfold absorbStore2 at herr4 ⊢
    cases hls : pyListSet arrNow.cells index (.elem c) with
    | some cells2 => simp only [hls] at herr4; exact absurd herr4 (by simp)
    | none => exact hP4
  simp only [arrayAbsorbOwn] at herr ⊢
  have h40 : (hget (hmodify { s2 with registry := s2.registry.erase c } c
      (fun x => { x with arrayOwner := some a })) a).map cellsLenP = some x := by
    rw [hget_map_hmodify { s2 with registry := s2.registry.erase c } c a
      (fun x => { x with arrayOwner := some a }) cellsLenP (fun e => rfl)]
    rw [hget_registry]
    exact hP
  cases h5 : hget (hmodify { s2 with registry := s2.registry.erase c } c
      (fun x => { x with arrayOwner := some a })) a with
  | none => rw [h5] at h40; exact absurd h40 (by simp)
  | some arrNow =>
    simp only [h5] at herr
    exact hstore _ arrNow h40 herr

theorem arrayAbsorb_cellsLenP (s1 : VBState) (a : Nat) (grown : Elem)
    (index : Int) (c : Nat) (ce : Elem) (err : VErr) (x : List Cell × PyVal)
    (hP : (hget s1 a).map cellsLenP = some x)
    (herr : (arrayAbsorb s1 a grown index c ce).2 = some err) :
    (hget (arrayAbsorb s1 a grown index c ce).1 a).map cellsLenP = some x := by
  unfold arrayAbsorb at herr ⊢
  cases hpar : ce.parent with
  | none =>
    simp only [hpar] at herr ⊢
    exact arrayAbsorbOwn_cellsLenP s1 a index c err x hP herr
  | some p =>
    simp only [hpar] at herr ⊢
    by_cases hpp : grown.parent = some p
    · rw [if_pos hpp] at herr ⊢
      refine arrayAbsorbOwn_cellsLenP _ a index c err x ?_ herr
      rw [hget_map_panelRemoveF s1 p c a cellsLenP (fun e ch => rfl)
        (fun e pa => rfl)]
      exact hP
    · rw [if_neg hpp] at herr ⊢
      exact hP

theorem arraySetRefOwnChk_err (s1 : VBState) (a : Nat) (grown : Elem)
    (index : Int) (c : Nat) (ce : Elem) (o : Nat) (err : VErr)
    (x : List Cell × PyVal)
    (hP : (hget s1 a).map cellsLenP = some x)
    (herr : (arraySetRefOwnChk s1 a grown index c ce o).2 = some err) :
    (hget (arraySetRefOwnChk s1 a grown index c ce o).1 a).map cellsLenP =
      some x := by
  unfold arraySetRefOwnChk at herr ⊢
  by_cases hoa : o ≠ a
  · rw [if_pos hoa] at herr ⊢; exact hP
  · rw [if_neg hoa] at herr ⊢
    exact arrayAbsorb_cellsLenP s1 a grown index c ce err x hP herr

theorem arraySetRefOwn_err (s1 : VBState) (a : Nat) (grown : Elem)
    (index : Int) (c : Nat) (ce : Elem) (err : VErr) (x : List Cell × PyVal)
    (hP : (hget s1 a).map cellsLenP = some x)
    (herr : (arraySetRefOwn s1 a grown index c ce).2 = some err) :
    (hget (arraySetRefOwn s1 a grown index c ce).1 a).map cellsLenP =
      some x := by
  unfold arraySetRefOwn at herr ⊢
  cases how : ce.arrayOwner with
  | some o =>
    simp only [how] at herr
    exact arraySetRefOwnChk_err s1 a grown index c ce o err x hP herr
  | none =>
    simp only [how] at herr
    exact arrayAbsorb_cellsLenP s1 a grown index c ce err x hP herr

theorem arraySetRefCk_err (s1 : VBState) (a : Nat) (grown : Elem)
    (index : Int) (c : Nat) (ce : Elem) (err : VErr) (x : List Cell × PyVal)
    (hP : (hget s1 a).map cellsLenP = some x)
    (herr : (arraySetRefCk s1 a grown index c ce).2 = some err) :
    (hget (arraySetRefCk s1 a grown index c ce).1 a).map cellsLenP =
      some x := by
  unfold arraySetRefCk at herr ⊢
  by_cases hsh : isShapeKind ce.kind = true
  · rw [if_neg (by simp [hsh])] at herr ⊢
    exact arraySetRefOwn_err s1 a grown index c ce err x hP herr
  · rw [if_pos (by simp [hsh])] at herr ⊢
    exact hP

theorem arraySetRef_err (s1 : VBState) (a : Nat) (grown : Elem) (index : Int)
    (c : Nat) (err : VErr) (x : List Cell × PyVal)
    (hP : (hget s1 a).map cellsLenP = some x)
    (herr : (arraySetRef s1 a grown index c).2 = some err) :
    (hget (arraySetRef s1 a grown index c).1 a).map cellsLenP = some x := by
  unfold arraySetRef at herr ⊢
  cases hc : hget s1 c with
  | none => exact hP
  | some ce =>
    simp only [hc] at herr
    exact arraySetRefCk_err s1 a grown index c ce err x hP herr

/-- Claim C10: if assigning at an index at or beyond the current cell count
raises any error, the array has nonetheless already been extended with
type-appropriate default cells up to that index, and its length slot
bumped, before the error was raised: the failed assignment is not atomic
and leaves the target array grown. -/
theorem c10_grow_before_error (s : VBState) (a : Nat) (idx : Int) (v : SetVal)
    (arr0 : Elem) (err : VErr)
    (hA : hget s a = some arr0)
    (hidx : (arr0.cells.length : Int) ≤ idx)
    (herr : (arraySetitem s a idx v).2 = some err) :
    (hget (arraySetitem s a idx v).1 a).map cellsLenP =
      some (arr0.cells ++
          List.replicate (idx + 1 - (arr0.cells.length : Int)).toNat
            (cellDefault arr0),
        .int (idx.toNat + 1)) := by
  have hlen : (arr0.cells ++
      List.replicate (idx + 1 - (arr0.cells.length : Int)).toNat
        (cellDefault arr0)).length = idx.toNat + 1 := by
    simp only [List.length_append, List.length_replicate]
    omega
  have hCP : cellsLenP (growElem arr0 idx) =
      (arr0.cells ++
        List.replicate (idx + 1 - (arr0.cells.length : Int)).toNat
          (cellDefault arr0),
       .int (idx.toNat + 1)) := by
    simp only [growElem, cellsLenP, hlen]
    norm_cast
  have hs1 : hget (hset s a (growElem arr0 idx)) a = some (growElem arr0 idx) :=
    hget_hset_self s a _ arr0 hA
  have hP : (hget (hset s a (growElem arr0 idx)) a).map cellsLenP =
      some (arr0.cells ++
        List.replicate (idx + 1 - (arr0.cells.length : Int)).toNat
          (cellDefault arr0),
       .int (idx.toNat + 1)) := by
    rw [hs1]
    simp [hCP]
  cases v with
  | plain pv =>
    simp only [arraySetitem, hA, hidx, if_true] at herr ⊢
    exact arraySetPlain_err _ a _ idx pv err _ hP herr
  | dmap entries =>
    simp only [arraySetitem, hA, hidx, if_true] at herr ⊢
    rw [arraySetDict_err _ a _ idx entries err _ hs1 herr, hCP]
  | ref c =>
    simp only [arraySetitem, hA, hidx, if_true] at herr ⊢
    exact arraySetRef_err _ a _ idx c err _ hP herr

/-- Witness for c10_grow_before_error: a fresh five-cell array refuses a
Var element at index 7, yet afterwards has eight cells and length 8. -/
theorem c10_grow_before_error_witness :
    (hget (arraySetitem (runOps [.newArray "arr" PyVal.none, .newVar "x"]) 0 7
        (.ref 1)).1 0).map cellsLenP =
      some (List.replicate 5 (Cell.val (.int 0)) ++
          List.replicate 3 (Cell.val (.int 0)), .int 8) := by
  have h := c10_grow_before_error (runOps [.newArray "arr" PyVal.none, .newVar "x"])
    0 7 (.ref 1)
    (mkArray "arr" PyVal.none) .notShape rfl (by decide) rfl
  simpa using h

/-! ## Claim C6: error conditions and effects of Array.__setitem__ -/

theorem pyListSet_eq_none_iff (l : List Cell) (idx : Int) (cv : Cell) :
    pyListSet l idx cv = Option.none ↔
      ((0 ≤ idx ∧ (l.length : Int) ≤ idx) ∨ (idx < 0 ∧ idx + l.length < 0)) := by
  unfold pyListSet
  split_ifs <;> simp_all

theorem panelRemoveF_registry (s : VBState) (p c : Nat) :
    (panelRemoveF s p c).registry = s.registry := by
  cases hp : hget s p with
  | none => unfold panelRemoveF; simp only [hp]
  | some pe =>
    unfold panelRemoveF
    simp only [hp]
    by_cases hc : c ∈ pe.children
    · rw [if_pos hc, hmodify_registry, hset_registry]
    · rw [if_neg hc]

theorem absorbOwn_spec_some (s2 : VBState) (a c : Nat) (idx : Int)
    (grown : Elem) (cells2 : List Cell) (hca : c ≠ a)
    (hga : hget s2 a = some grown)
    (hls : pyListSet grown.cells idx (.elem c) = some cells2) :
    arrayAbsorbOwn s2 a idx c =
      (hset (hmodify { s2 with registry := s2.registry.erase c } c
          (fun x => { x with arrayOwner := some a })) a
        { grown with cells := cells2 }, Option.none) := by
  have h4 : hget (hmodify { s2 with registry := s2.registry.erase c } c
      (fun x => { x with arrayOwner := some a })) a = some grown := by
    rw [hget_hmodify_ne _ c a _ hca, hget_registry]
    exact hga
  simp only [arrayAbsorbOwn]
  simp only [h4]
  unfold absorbStore2
  rw [hls]

theorem absorbOwn_spec_none (s2 : VBState) (a c : Nat) (idx : Int)
    (grown : Elem) (hca : c ≠ a)
    (hga : hget s2 a = some grown)
    (hls : pyListSet grown.cells idx (.elem c) = Option.none) :
    arrayAbsorbOwn s2 a idx c =
      (hmodify { s2 with registry := s2.registry.erase c } c
          (fun x => { x with arrayOwner := some a }), some .indexError) := by
  have h4 : hget (hmodify { s2 with registry := s2.registry.erase c } c
      (fun x => { x with arrayOwner := some a })) a = some grown := by
    rw [hget_hmodify_ne _ c a _ hca, hget_registry]
    exact hga
  simp only [arrayAbsorbOwn]
  simp only [h4]
  unfold absorbStore2
  rw [hls]

/-- Shared tail of the amended setitem analysis, for a shape value whose
recorded owner (if any) is this same array. -/
theorem c6_absorb_tail (s : VBState) (a c : Nat) (idx : Int) (arr ce : Elem)
    (hA : hget s a = some arr) (hC : hget s c = some ce) (hca : c ≠ a)
    (hreg : s.registry.Nodup)
    (hpm : ∀ p, ce.parent = some p →
      ∃ pe, hget s p = some pe ∧ c ∈ pe.children ∧ pe.children.Nodup ∧
        p ≠ a ∧ p ≠ c)
    (hac : a ≠ c) (G : Elem)
    (hGdef : G = if ((arr.cells.length : Int)) ≤ idx then growElem arr idx else arr)
    (hGpar : G.parent = arr.parent)
    (hGlen1 : 0 ≤ idx → idx < (G.cells.length : Int))
    (hGlen2 : idx < 0 → G.cells = arr.cells)
    (hs1a : hget (hset s a G) a = some G)
    (hs1c : hget (hset s a G) c = some ce)
    (hsh : isShapeKind ce.kind = true)
    (eAbs0 : arraySetitem s a idx (.ref c) = arrayAbsorb (hset s a G) a G idx c ce)
    (hNoOther : ¬ ∃ o, ce.arrayOwner = some o ∧ o ≠ a) :
    ((arraySetitem s a idx (.ref c)).2 ≠ Option.none ↔
      (isShapeKind ce.kind = false ∨
       (∃ o, ce.arrayOwner = some o ∧ o ≠ a) ∨
       (∃ p, ce.parent = some p ∧ arr.parent ≠ some p) ∨
       (idx < 0 ∧ idx + (arr.cells.length : Int) < 0))) ∧
    ((arraySetitem s a idx (.ref c)).2 = Option.none →
      ((arraySetitem s a idx (.ref c)).1.registry = s.registry.erase c ∧
       c ∉ (arraySetitem s a idx (.ref c)).1.registry ∧
       (hget (arraySetitem s a idx (.ref c)).1 c).map
         (fun e => (e.arrayOwner, e.parent)) = some (some a, Option.none) ∧
       (∀ p, ce.parent = some p →
         ∃ pe, hget s p = some pe ∧
           (hget (arraySetitem s a idx (.ref c)).1 p).map (fun e => e.children)
             = some (pe.children.erase c) ∧
           c ∉ pe.children.erase c))) := by
  cases hpar : ce.parent with
  | none =>
    have eAbs : arraySetitem s a idx (.ref c) =
        arrayAbsorbOwn (hset s a G) a idx c := by
      rw [eAbs0]
      unfold arrayAbsorb
      simp only [hpar]
    cases hls : pyListSet G.cells idx (.elem c) with
    | some cells2 =>
      have hEQ := eAbs.trans
        (absorbOwn_spec_some (hset s a G) a c idx G cells2 hca hs1a hls)
      simp only [hEQ]
      constructor
      · constructor
        · intro h2; exact absurd rfl h2
        · intro hd
          exfalso
          rcases hd with h1 | h2 | h3 | h4
          · exact absurd h1 (by simp [hsh])
          · exact hNoOther h2
          · rcases h3 with ⟨p, hp, _⟩
            exact absurd hp (by simp)
          · have hcontra := (pyListSet_eq_none_iff G.cells idx (.elem c)).mpr
              (Or.inr (by rw [hGlen2 h4.1]; exact h4))
            rw [hls] at hcontra
            exact absurd hcontra (by simp)
      · intro _
        refine ⟨?_, ?_, ?_, ?_⟩
        · rw [hset_registry, hmodify_registry]
          rfl
        · rw [hset_registry, hmodify_registry]
          exact hreg.not_mem_erase
        · rw [hget_hset_ne _ a c _ hac,
            hget_hmodify_self _ c _ ce (by rw [hget_registry]; exact hs1c)]
          simp [hpar]
        · intro p hp
          exact absurd hp (by simp)
    | none =>
      have hEQ := eAbs.trans
        (absorbOwn_spec_none (hset s a G) a c idx G hca hs1a hls)
      simp only [hEQ]
      constructor
      · constructor
        · intro _
          refine Or.inr (Or.inr (Or.inr ?_))
          have hn := (pyListSet_eq_none_iff G.cells idx (.elem c)).mp hls
          rcases hn with ⟨h0, hlen⟩ | ⟨hneg, hwrap⟩
          · have := hGlen1 h0; omega
          · rw [hGlen2 hneg] at hwrap; exact ⟨hneg, hwrap⟩
        · intro _; simp
      · intro h; exact absurd h (by simp)
  | some p =>
    by_cases hpp : G.parent = some p
    case pos =>
      obtain ⟨pe, hpe, hcmem, hnd, hpa, hpc⟩ := hpm p hpar
      have hs1p : hget (hset s a G) p = some pe := by
        rw [hget_hset_ne s a p G (Ne.symm hpa)]; exact hpe
      have ePR : panelRemoveF (hset s a G) p c =
          hmodify (hset (hset s a G) p
            { pe with children := pe.children.erase c }) c
            (fun e => { e with parent := Option.none }) := by
        unfold panelRemoveF
        simp only [hs1p]
        rw [if_pos hcmem]
      have eAbs : arraySetitem s a idx (.ref c) =
          arrayAbsorbOwn (panelRemoveF (hset s a G) p c) a idx c := by
        rw [eAbs0]
        unfold arrayAbsorb
        simp only [hpar]
        rw [if_pos hpp]
      have hs2a : hget (panelRemoveF (hset s a G) p c) a = some G := by
        rw [ePR, hget_hmodify_ne _ c a _ hca, hget_hset_ne _ p a _ hpa]
        exact hs1a
      have hs2c : hget (panelRemoveF (hset s a G) p c) c =
          some { ce with parent := Option.none } := by
        rw [ePR]
        exact hget_hmodify_self _ c _ ce
          (by rw [hget_hset_ne _ p c _ hpc]; exact hs1c)
      have hs2p : hget (panelRemoveF (hset s a G) p c) p =
          some { pe with children := pe.children.erase c } := by
        rw [ePR, hget_hmodify_ne _ c p _ (Ne.symm hpc)]
        exact hget_hset_self _ p _ pe hs1p
      have hs2reg : (panelRemoveF (hset s a G) p c).registry = s.registry := by
        rw [panelRemoveF_registry, hset_registry]
      cases hls : pyListSet G.cells idx (.elem c) with
      | some cells2 =>
        have hEQ := eAbs.trans
          (absorbOwn_spec_some _ a c idx G cells2 hca hs2a hls)
        simp only [hEQ]
        constructor
        · constructor
          · intro h2; exact absurd rfl h2
          · intro hd
            exfalso
            rcases hd with h1 | h2 | h3 | h4
            · exact absurd h1 (by simp [hsh])
            · exact hNoOther h2
            · rcases h3 with ⟨p2, hp2, hne2⟩
              have hp2e : p2 = p := by simpa using hp2.symm
              subst hp2e
              rw [← hGpar] at hne2
              exact hne2 hpp
            · have hcontra := (pyListSet_eq_none_iff G.cells idx (.elem c)).mpr
                (Or.inr (by rw [hGlen2 h4.1]; exact h4))
              rw [hls] at hcontra
              exact absurd hcontra (by simp)
        · intro _
          refine ⟨?_, ?_, ?_, ?_⟩
          · rw [hset_registry, hmodify_registry]
            show (panelRemoveF (hset s a G) p c).registry.erase c
              = s.registry.erase c
            rw [hs2reg]
          · rw [hset_registry, hmodify_registry]
            show c ∉ (panelRemoveF (hset s a G) p c).registry.erase c
            rw [hs2reg]
            exact hreg.not_mem_erase
          · rw [hget_hset_ne _ a c _ hac,
              hget_hmodify_self _ c _ { ce with parent := Option.none }
                (by rw [hget_registry]; exact hs2c)]
            simp
          · intro p2 hp2
            have hp2e : p2 = p := by simpa using hp2.symm
            subst hp2e
            refine ⟨pe, hpe, ?_, hnd.not_mem_erase⟩
            rw [hget_hset_ne _ a p2 _ (Ne.symm hpa),
              hget_hmodify_ne _ c p2 _ (Ne.symm hpc), hget_registry, hs2p]
            rfl
      | none =>
        have hEQ := eAbs.trans
          (absorbOwn_spec_none _ a c idx G hca hs2a hls)
        simp only [hEQ]
        constructor
        · constructor
          · intro _
            refine Or.inr (Or.inr (Or.inr ?_))
            have hn := (pyListSet_eq_none_iff G.cells idx (.elem c)).mp hls
            rcases hn with ⟨h0, hlen⟩ | ⟨hneg, hwrap⟩
            · have := hGlen1 h0; omega
            · rw [hGlen2 hneg] at hwrap; exact ⟨hneg, hwrap⟩
          · intro _; simp
        · intro h; exact absurd h (by simp)
    case neg =>
      have hEQ : arraySetitem s a idx (.ref c) = (hset s a G, some .otherPanel) := by
        rw [eAbs0]
        unfold arrayAbsorb
        simp only [hpar]
        rw [if_neg hpp]
      simp only [hEQ]
      constructor
      · constructor
        · intro _
          refine Or.inr (Or.inr (Or.inl ⟨p, rfl, ?_⟩))
          rw [← hGpar]
          exact hpp
        · intro _; simp
      · intro h; exact absurd h (by simp)

/-- Claim C6 (amended): assigning a value into an array cell raises an
error if and only if the value is a visual element that is not a shape, or
is already owned by a different array, or has a panel parent different
from the array's own parent, or - the condition the original claim misses -
the index is negative and out of range even after wrapping, which raises
IndexError.  On success the shape is removed from the process-wide
registry, its recorded owner becomes this array, and a same-panel parent
has been cleared, with the shape removed from that panel's child list.
(Well-formedness hypotheses: the value is a distinct element from the
array, the registry has no duplicates, and a parent pointer of the shape
targets a live element that lists it as a child and is distinct from the
array and the shape - all hold in reachable states.) -/
theorem c6_setitem_amended (s : VBState) (a c : Nat) (idx : Int)
    (arr ce : Elem)
    (hA : hget s a = some arr) (hC : hget s c = some ce) (hca : c ≠ a)
    (hreg : s.registry.Nodup)
    (hpm : ∀ p, ce.parent = some p →
      ∃ pe, hget s p = some pe ∧ c ∈ pe.children ∧ pe.children.Nodup ∧
        p ≠ a ∧ p ≠ c) :
    ((arraySetitem s a idx (.ref c)).2 ≠ Option.none ↔
      (isShapeKind ce.kind = false ∨
       (∃ o, ce.arrayOwner = some o ∧ o ≠ a) ∨
       (∃ p, ce.parent = some p ∧ arr.parent ≠ some p) ∨
       (idx < 0 ∧ idx + (arr.cells.length : Int) < 0))) ∧
    ((arraySetitem s a idx (.ref c)).2 = Option.none →
      ((arraySetitem s a idx (.ref c)).1.registry = s.registry.erase c ∧
       c ∉ (arraySetitem s a idx (.ref c)).1.registry ∧
       (hget (arraySetitem s a idx (.ref c)).1 c).map
         (fun e => (e.arrayOwner, e.parent)) = some (some a, Option.none) ∧
       (∀ p, ce.parent = some p →
         ∃ pe, hget s p = some pe ∧
           (hget (arraySetitem s a idx (.ref c)).1 p).map (fun e => e.children)
             = some (pe.children.erase c) ∧
           c ∉ pe.children.erase c))) := by
  have hac : a ≠ c := Ne.symm hca
  set G : Elem := if ((arr.cells.length : Int)) ≤ idx then growElem arr idx else arr
    with hGdef
  have hGpar : G.parent = arr.parent := by
    rw [hGdef]; split <;> simp [growElem]
  have hGlen1 : 0 ≤ idx → idx < (G.cells.length : Int) := by
    intro h0
    rw [hGdef]
    split
    · rename_i hle
      simp only [growElem, List.length_append, List.length_replicate]
      push_cast
      omega
    · rename_i hlt
      push_neg at hlt
      omega
  have hGlen2 : idx < 0 → G.cells = arr.cells := by
    intro hneg
    rw [hGdef]
    split
    · rename_i hle; omega
    · rfl
  have hs1a : hget (hset s a G) a = some G := hget_hset_self s a G arr hA
  have hs1c : hget (hset s a G) c = some ce := by
    rw [hget_hset_ne s a c G hac]; exact hC
  have e1 : arraySetitem s a idx (.ref c) =
      arraySetRefCk (hset s a G) a G idx c ce := by
    simp only [arraySetitem, hA, ← hGdef]
    unfold arraySetRef
    rw [hs1c]
  by_cases hsh : isShapeKind ce.kind = true
  case neg =>
    have hEQ : arraySetitem s a idx (.ref c) = (hset s a G, some .notShape) := by
      rw [e1]
      unfold arraySetRefCk
      rw [if_pos (by simp [hsh])]
    simp only [hEQ]
    refine ⟨⟨fun _ => Or.inl (by simpa using hsh), fun _ => by simp⟩, ?_⟩
    intro h; exact absurd h (by simp)
  case pos =>
    have eCk : arraySetitem s a idx (.ref c) =
        arraySetRefOwn (hset s a G) a G idx c ce := by
      rw [e1]
      unfold arraySetRefCk
      rw [if_neg (by simp [hsh])]
    -- dispatch on the recorded owner
    cases how : ce.arrayOwner with
    | some o =>
      by_cases hoa : o ≠ a
      · have hEQ : arraySetitem s a idx (.ref c) =
            (hset s a G, some .otherArray) := by
          rw [eCk]
          unfold arraySetRefOwn
          simp only [how]
          unfold arraySetRefOwnChk
          rw [if_pos hoa]
        simp only [hEQ]
        refine ⟨⟨fun _ => Or.inr (Or.inl ⟨o, rfl, hoa⟩), fun _ => by simp⟩, ?_⟩
        intro h; exact absurd h (by simp)
      · push_neg at hoa
        have eAbs0 : arraySetitem s a idx (.ref c) =
            arrayAbsorb (hset s a G) a G idx c ce := by
          rw [eCk]
          unfold arraySetRefOwn
          simp only [how]
          unfold arraySetRefOwnChk
          rw [if_neg (by simp [hoa])]
        have htail := c6_absorb_tail s a c idx arr ce hA hC hca hreg hpm hac G
          hGdef hGpar hGlen1 hGlen2 hs1a hs1c hsh eAbs0 (by
            rintro ⟨o2, ho2, hne2⟩
            rw [how] at ho2
            have ho2e : o2 = o := by simpa using ho2.symm
            exact hne2 (ho2e.trans hoa))
        rw [how] at htail
        exact htail
    | none =>
      have eAbs0 : arraySetitem s a idx (.ref c) =
          arrayAbsorb (hset s a G) a G idx c ce := by
        rw [eCk]
        unfold arraySetRefOwn
        simp only [how]
      have htail := c6_absorb_tail s a c idx arr ce hA hC hca hreg hpm hac G
        hGdef hGpar hGlen1 hGlen2 hs1a hs1c hsh eAbs0 (by
          rintro ⟨o2, ho2, _⟩
          rw [how] at ho2
          exact absurd ho2 (by simp))
      rw [how] at htail
      exact htail

/-- Claim C6 counterexample: assigning a fresh Rect - a shape with no
owner and no parent, violating none of the claim's three error conditions -
at index -10 of a five-cell array nevertheless raises IndexError, so the
claimed "if and only if" is false as stated. -/
theorem c6_setitem_counterexample :
    (arraySetitem (runOps [.newArray "arr" PyVal.none, .newRect pvPos00]) 0
        (-10) (.ref 1)).2 = some .indexError ∧
    (hget (runOps [.newArray "arr" PyVal.none, .newRect pvPos00]) 1).map
        (fun e => (isShapeKind e.kind, e.arrayOwner, e.parent)) =
      some (true, Option.none, Option.none) :=
  ⟨rfl, rfl⟩

/-- Witness for c6_setitem_amended: in the two-children panel model, the
panel-owned rect is absorbed at index 2 of the same-panel array; the
registry drops the rect and ownership transfers with the parent cleared. -/
theorem c6_setitem_witness :
    (arraySetitem c6Demo 1 2 (.ref 2)).2 = Option.none ∧
    (arraySetitem c6Demo 1 2 (.ref 2)).1.registry = [0, 1] ∧
    (hget (arraySetitem c6Demo 1 2 (.ref 2)).1 2).map
      (fun e => (e.arrayOwner, e.parent)) = some (some 1, Option.none) := by
  have heff := (c6_setitem_amended c6Demo 1 2 2
    { mkArray "arr" PyVal.none with parent := some 0 }
    { mkRect pvPos00 with parent := some 0 }
    rfl rfl (by decide) (by decide)
    (by
      intro p hp
      have hp0 : p = 0 := by simpa using hp.symm
      subst hp0
      exact ⟨{ mkPanel "P" with children := [1, 2] }, rfl, by decide, by decide,
        by decide, by decide⟩)).2 rfl
  refine ⟨rfl, ?_, heff.2.2.1⟩
  rw [heff.1]
  rfl

/-! ## Claim C4: last-good-value semantics of binding resolution -/

/-- Ordered association update at one key leaves every other key's lookup
unchanged. -/
theorem alSet_lookup_ne {β : Type} (l : List (String × β)) (k : String) (v : β)
    (n : String) (h : k ≠ n) : (alSet l k v).lookup n = l.lookup n := by
  have hnk : (n == k) = false := by
    simp only [beq_eq_false_iff_ne]
    exact fun hc => h hc.symm
  induction l with
  | nil => simp [alSet, List.lookup, hnk]
  | cons hd t ih =>
    obtain ⟨k0, v0⟩ := hd
    by_cases hk : k0 = k
    · subst hk
      simp [alSet, List.lookup, hnk]
    · simp [alSet, hk, List.lookup, ih]

/-- object.__setattr__ on one attribute leaves every other attribute read
unchanged (the length property pins only the length slot). -/
theorem getAttrD_setAttrObj_ne (e : Elem) (n : String) (v : PyVal)
    (attr : String) (d : PyVal) (h : n ≠ attr) :
    getAttrD (setAttrObj e n v) attr d = getAttrD e attr d := by
  unfold setAttrObj getAttrD
  split_ifs with h1 h2 h3 <;>
    first
      | rfl
      | simp_all
  · exact congrArg (fun o => match o with
      | some w => w
      | Option.none => d) (alSet_lookup_ne e.attrs n v attr h)

/-- The binding-resolution fold of VisualElem.update never touches an
attribute that none of the folded bindings is registered under. -/
theorem genUpd_fold_ne (l : List (String × VExpr)) (params : List (String × PyVal))
    (acc : Elem) (attr : String) (d : PyVal) (hl : ∀ kv ∈ l, kv.1 ≠ attr) :
    getAttrD (l.foldl
      (fun acc kv =>
        match vResolve kv.2 params with
        | some v => setAttrObj acc kv.1 v
        | Option.none => acc) acc) attr d = getAttrD acc attr d := by
  induction l generalizing acc with
  | nil => rfl
  | cons hd t ih =>
    rw [List.foldl_cons, ih _ (fun kv hm => hl kv (List.mem_cons_of_mem hd hm))]
    cases hr : vResolve hd.2 params with
    | none => simp only [hr]
    | some v =>
      simp only [hr]
      exact getAttrD_setAttrObj_ne acc hd.1 v attr d (hl hd (List.mem_cons_self hd t))

/-- If the binding registered under an attribute resolves to the sentinel,
the whole binding-resolution fold leaves that attribute unchanged
(assuming the registered names are distinct, as Python dict keys are). -/
theorem genUpd_fold_lastGood (l : List (String × VExpr))
    (params : List (String × PyVal)) (attr : String) (ex : VExpr) (d : PyVal)
    (acc : Elem) (hnd : (l.map Prod.fst).Nodup) (hb : l.lookup attr = some ex)
    (hr : vResolve ex params = Option.none) :
    getAttrD (l.foldl
      (fun acc kv =>
        match vResolve kv.2 params with
        | some v => setAttrObj acc kv.1 v
        | Option.none => acc) acc) attr d = getAttrD acc attr d := by
  induction l generalizing acc with
  | nil => simp [List.lookup] at hb
  | cons hd t ih =>
    obtain ⟨k0, ex0⟩ := hd
    by_cases hk : k0 = attr
    · subst hk
      simp only [List.lookup, beq_self_eq_true] at hb
      have hex : ex0 = ex := by
        injection hb
      subst hex
      rw [List.foldl_cons]
      simp only [hr]
      have hpair : (∀ x : VExpr, (k0, x) ∉ t) ∧ (List.map Prod.fst t).Nodup := by
        simpa using hnd
      exact genUpd_fold_ne t params acc k0 d
        (fun kv hm hEq =>
          hpair.1 kv.2 (by rw [show (k0, kv.2) = kv from by rw [← hEq]]; exact hm))
    · have hak : (attr == k0) = false := by
        simp only [beq_eq_false_iff_ne]
        exact fun hc => hk hc.symm
      simp only [List.lookup, hak] at hb
      have hnd' : (t.map Prod.fst).Nodup :=
        (List.nodup_cons.mp (by simpa using hnd)).2
      rw [List.foldl_cons]
      cases hr0 : vResolve ex0 params with
      | none =>
        simp only [hr0]
        exact ih acc hnd' hb
      | some v =>
        simp only [hr0]
        rw [ih (setAttrObj acc k0 v) hnd' hb]
        exact getAttrD_setAttrObj_ne acc k0 v attr d hk

/-- Characterization of the structured-cell rebuild (lines 196-200): every
entry is re-resolved from scratch, a sentinel result being stored as the
concrete value None. -/
theorem resolveCellMap_lookup (m : List (String × CellEntry))
    (params : List (String × PyVal)) (k : String) :
    (resolveCellMap m params).lookup k =
      (m.lookup k).map
        (fun ent => CellEntry.val
          (match ent with
           | .binding ex => (vResolve ex params).getD PyVal.none
           | .val v => v)) := by
  induction m with
  | nil => rfl
  | cons hd t ih =>
    obtain ⟨k0, ent⟩ := hd
    cases ent <;> simp [resolveCellMap, List.lookup, ih] <;>
      split <;> simp [resolveCellMap] at ih ⊢ <;> exact ih

/-- Claim C4 (amended).  Element-level bound properties do have
last-good-value semantics: when the expression registered under an
attribute resolves to the sentinel NONE, VisualElem.update leaves the
attribute's concrete value untouched, and resolution failures never raise.
But an Array's structured map-valued cells are the exception the original
claim misses: Array.update rebuilds each such cell from its original
bindings every step, and an entry whose expression resolves to NONE is
overwritten with the concrete value None instead of keeping its previous
resolved value. -/
theorem c4_last_good_amended :
    (∀ (e : Elem) (params : List (String × PyVal)) (attr : String) (ex : VExpr) (d : PyVal),
        (e.bindings.map Prod.fst).Nodup →
        e.bindings.lookup attr = some ex →
        vResolve ex params = Option.none →
        getAttrD (genericUpdate e params) attr d = getAttrD e attr d) ∧
    (∀ (m : List (String × CellEntry)) (params : List (String × PyVal)) (k : String) (ex : VExpr),
        m.lookup k = some (.binding ex) →
        vResolve ex params = Option.none →
        (resolveCellMap m params).lookup k = some (CellEntry.val PyVal.none)) := by
  constructor
  · intro e params attr ex d hnd hb hr
    exact genUpd_fold_lastGood e.bindings params attr ex d e hnd hb hr
  · intro m params k ex hb hr
    rw [resolveCellMap_lookup, hb]
    simp [hr]

/-- Counterexample to claim C4 as stated: a structured array cell whose
single entry is bound to variable c holds the concrete value 5 after a
step with c = 5, but the next step, in which the binding resolves to the
sentinel NONE, overwrites it with None rather than leaving 5 in place
(visualBuilder.py lines 196-201). -/
theorem c4_stale_counterexample :
    (hget (runOps [.newArray "a" PyVal.none,
        .arraySet 0 0 (.dmap [("color", CellEntry.binding (.name "c"))]),
        .updateStep 0 [("c", PyVal.int 5)]]) 0).map (fun e => e.cells.head?) =
      some (some (Cell.map [("color", CellEntry.val (PyVal.int 5))])) ∧
    (hget (runOps [.newArray "a" PyVal.none,
        .arraySet 0 0 (.dmap [("color", CellEntry.binding (.name "c"))]),
        .updateStep 0 [("c", PyVal.int 5)],
        .updateStep 0 []]) 0).map (fun e => e.cells.head?) =
      some (some (Cell.map [("color", CellEntry.val PyVal.none)])) :=
  ⟨rfl, rfl⟩

/-- Witness for the amended claim C4 at concrete inputs: a Rect whose
width is bound to the undefined variable w keeps its width after an
update, and a structured-cell entry bound to w resolves to the stored
sentinel None. -/
theorem c4_last_good_witness :
    getAttrD (genericUpdate (setattrBind (mkRect pvPos00) "width" (.name "w")) [])
        "width" (PyVal.int 0) =
      getAttrD (setattrBind (mkRect pvPos00) "width" (.name "w")) "width" (PyVal.int 0) ∧
    (resolveCellMap [("color", CellEntry.binding (.name "w"))] []).lookup "color" =
      some (CellEntry.val PyVal.none) :=
  ⟨c4_last_good_amended.1 (setattrBind (mkRect pvPos00) "width" (.name "w")) []
      "width" (.name "w") (PyVal.int 0) (by decide) (by rfl) (by rfl),
   c4_last_good_amended.2 [("color", CellEntry.binding (.name "w"))] [] "color"
      (.name "w") (by rfl) (by rfl)⟩

/-! ## Claim C2: length auto-tracking and the serialized array record -/

/-- Fold preservation: a property stable under each step is stable under
the whole fold. -/
theorem foldl_pres {α σ : Type} (P : σ → Prop) (f : σ → α → σ)
    (hf : ∀ st a, P st → P (f st a)) :
    ∀ (l : List α) (st : σ), P st → P (l.foldl f st)
  | [], _, h => h
  | a :: t, st, h => foldl_pres P f hf t (f st a) (hf st a h)

/-- object.__setattr__ never changes the class of the element. -/
theorem setAttrObj_kind (e : Elem) (n : String) (v : PyVal) :
    (setAttrObj e n v).kind = e.kind := by
  unfold setAttrObj
  split <;> rfl

/-- object.__setattr__ bypasses the binding table. -/
theorem setAttrObj_bindings (e : Elem) (n : String) (v : PyVal) :
    (setAttrObj e n v).bindings = e.bindings := by
  unfold setAttrObj
  split <;> rfl

/-- object.__setattr__ on any attribute other than length leaves the
length slot alone. -/
theorem setAttrObj_plength_ne (e : Elem) (n : String) (v : PyVal)
    (h : n ≠ "length") : (setAttrObj e n v).plength = e.plength := by
  unfold setAttrObj
  split
  · next h1 => exact absurd h1.2 h
  · rfl

/-- The binding-resolution fold preserves the element class. -/
theorem genUpd_fold_kind (l : List (String × VExpr)) (params : List (String × PyVal))
    (acc : Elem) :
    (l.foldl
      (fun acc kv =>
        match vResolve kv.2 params with
        | some v => setAttrObj acc kv.1 v
        | Option.none => acc) acc).kind = acc.kind := by
  induction l generalizing acc with
  | nil => rfl
  | cons hd t ih =>
    rw [List.foldl_cons, ih]
    cases hr : vResolve hd.2 params with
    | none => simp only [hr]
    | some v => simp only [hr, setAttrObj_kind]

/-- The binding-resolution fold preserves the binding table. -/
theorem genUpd_fold_bindings (l : List (String × VExpr)) (params : List (String × PyVal))
    (acc : Elem) :
    (l.foldl
      (fun acc kv =>
        match vResolve kv.2 params with
        | some v => setAttrObj acc kv.1 v
        | Option.none => acc) acc).bindings = acc.bindings := by
  induction l generalizing acc with
  | nil => rfl
  | cons hd t ih =>
    rw [List.foldl_cons, ih]
    cases hr : vResolve hd.2 params with
    | none => simp only [hr]
    | some v => simp only [hr, setAttrObj_bindings]

/-- The binding-resolution fold preserves the length slot when no folded
binding is registered under length. -/
theorem genUpd_fold_plength (l : List (String × VExpr)) (params : List (String × PyVal))
    (acc : Elem) (hl : ∀ kv ∈ l, kv.1 ≠ "length") :
    (l.foldl
      (fun acc kv =>
        match vResolve kv.2 params with
        | some v => setAttrObj acc kv.1 v
        | Option.none => acc) acc).plength = acc.plength := by
  induction l generalizing acc with
  | nil => rfl
  | cons hd t ih =>
    rw [List.foldl_cons, ih _ (fun kv hm => hl kv (List.mem_cons_of_mem hd hm))]
    cases hr : vResolve hd.2 params with
    | none => simp only [hr]
    | some v =>
      simp only [hr]
      exact setAttrObj_plength_ne acc hd.1 v (hl hd (List.mem_cons_self hd t))

/-- VisualElem.update preserves the element class. -/
theorem genericUpdate_kind (e : Elem) (params : List (String × PyVal)) :
    (genericUpdate e params).kind = e.kind :=
  genUpd_fold_kind e.bindings params e

/-- VisualElem.update preserves the binding table. -/
theorem genericUpdate_bindings (e : Elem) (params : List (String × PyVal)) :
    (genericUpdate e params).bindings = e.bindings :=
  genUpd_fold_bindings e.bindings params e

/-- VisualElem.update preserves the length slot when no binding is
registered under length. -/
theorem genericUpdate_plength (e : Elem) (params : List (String × PyVal))
    (hl : ∀ kv ∈ e.bindings, kv.1 ≠ "length") :
    (genericUpdate e params).plength = e.plength :=
  genUpd_fold_plength e.bindings params e hl

/-- Array.update (lines 187-192) on an array whose length was never
pinned and whose var_name names a list in the step parameters records
that list's length in the length slot, and every later phase of the
update keeps it there. -/
theorem arrayUpdate_tracks (s : VBState) (i : Nat) (params : List (String × PyVal))
    (e : Elem) (vn : String) (xs : PyList)
    (hE : hget s i = some e) (hk : e.kind = .array)
    (hm : e.lengthManuallySet = false)
    (hvn : getAttrD e "var_name" PyVal.none = .str vn) (hvne : vn ≠ "")
    (hp : params.lookup vn = some (.list xs))
    (hlb : ∀ kv ∈ e.bindings, kv.1 ≠ "length") :
    arrTracked i (plLen xs) (arrayUpdate s i params).1 := by
  have hT : pyTruthy (PyVal.str vn) = true := by
    simp [pyTruthy, hvne]
  unfold arrayUpdate
  simp only [hE, hvn, hm, hp, hT, Bool.not_false, Bool.true_and, Bool.and_self,
    Option.isSome_some, if_true]
  refine foldl_pres
      (fun acc : VBState × Option VErr => arrTracked i (plLen xs) acc.1) _
      ?step2 _ _ ?base2
  case base2 =>
    refine foldl_pres (arrTracked i (plLen xs)) _ ?step1 _ _ ?base1
    case base1 =>
      refine ⟨genericUpdate
        { e with plength := PyVal.int (plLen xs), lengthManuallySet := false }
        params, ?_, ?_, ?_, ?_⟩
      · exact hget_hset_self s i _ e hE
      · rw [genericUpdate_kind]
        exact hk
      · exact genericUpdate_plength
          { e with plength := PyVal.int (plLen xs), lengthManuallySet := false }
          params hlb
      · rw [genericUpdate_bindings]
        exact hlb
    case step1 =>
      rintro st c ⟨e2, hg, hk2, hp2, hb2⟩
      cases c with
      | val v => exact ⟨e2, hg, hk2, hp2, hb2⟩
      | map m => exact ⟨e2, hg, hk2, hp2, hb2⟩
      | elem cid =>
        by_cases hci : cid = i
        · subst hci
          refine ⟨genericUpdate e2 params, ?_, ?_, ?_, ?_⟩
          · exact hget_hmodify_self st cid _ e2 hg
          · rw [genericUpdate_kind]
            exact hk2
          · rw [genericUpdate_plength _ params hb2]
            exact hp2
          · rw [genericUpdate_bindings]
            exact hb2
        · exact ⟨e2, by rw [hget_hmodify_ne st cid i _ hci]; exact hg, hk2, hp2, hb2⟩
  case step2 =>
    rintro ⟨st, err⟩ kv hP
    cases err with
    | some e' => exact hP
    | none =>
      obtain ⟨e2, hg, hk2, hp2, hb2⟩ := hP
      simp only [hg]
      by_cases hlt : kv.1 < (e2.cells.length : Int)
      · rw [if_pos hlt]
        cases hps : pyListSet e2.cells kv.1 (Cell.map (resolveCellMap kv.2 params)) with
        | none =>
          simp only [hps]
          exact ⟨e2, hg, hk2, hp2, hb2⟩
        | some cells2 =>
          simp only [hps]
          exact ⟨{ e2 with cells := cells2 },
            hget_hset_self st i _ e2 hg, hk2, hp2, hb2⟩
      · rw [if_neg hlt]
        exact ⟨e2, hg, hk2, hp2, hb2⟩

/-- _serialize_elem on an array reads the serialized length from the
length property (the _length slot) and the serialized values from the
array's own cell store. -/
theorem serializeElem_array_fields (s : VBState) (e : Elem) (L : Int)
    (r : List (String × PyVal))
    (hk : e.kind = .array) (hpl : e.plength = .int L)
    (h : serializeElem s e = .ok r) :
    r.lookup "length" = some (.int L) ∧
    ∃ vals, e.cells.mapM (serializeCell s) = .ok vals ∧
      r.lookup "values" = some (.list (plOf vals)) := by
  have hlen : getAttrD e "length" (.int 5) = .int L := by
    unfold getAttrD
    rw [if_pos ⟨hk, rfl⟩]
    exact hpl
  simp only [serializeElem, serializeElemBody, hk, hlen] at h
  cases hmm : e.cells.mapM (serializeCell s) with
  | error u =>
    rw [hmm] at h
    simp only [pyIntE, pyIntConv, bind, Except.bind] at h
    exact Except.noConfusion h
  | ok vals =>
    rw [hmm] at h
    simp only [pyIntE, pyIntConv, bind, Except.bind, pure, Except.pure,
      Except.ok.injEq] at h
    subst h
    refine ⟨?_, vals, rfl, ?_⟩
    · simp [alSet, List.lookup]
    · by_cases hET : pyTruthy (getAttrD e "element_type" PyVal.none) = true
      · rw [if_pos hET]
        simp [alSet, List.lookup]
      · rw [if_neg hET]
        simp [alSet, List.lookup]

/-- Claim C2 (amended).  For an Array whose length was never explicitly
set, with no binding registered under the length attribute, and whose
var_name names a list variable of the step parameters, the update
records the list's length: the serialized record's length field equals
the list's current length at every such step.  But the record's values
field is built from the array's own cell store, which the bound
variable does not populate, so serialized values need not equal the
list's contents. -/
theorem c2_array_length_amended (s : VBState) (i : Nat)
    (params : List (String × PyVal)) (e : Elem) (vn : String) (xs : PyList)
    (hE : hget s i = some e) (hk : e.kind = .array)
    (hm : e.lengthManuallySet = false)
    (hvn : getAttrD e "var_name" PyVal.none = .str vn) (hvne : vn ≠ "")
    (hp : params.lookup vn = some (.list xs))
    (hlb : ∀ kv ∈ e.bindings, kv.1 ≠ "length") :
    ∃ e2, hget (arrayUpdate s i params).1 i = some e2 ∧
      e2.plength = PyVal.int (plLen xs) ∧
      ∀ r, serializeElem (arrayUpdate s i params).1 e2 = .ok r →
        r.lookup "length" = some (.int (plLen xs)) ∧
        ∃ vals, e2.cells.mapM (serializeCell (arrayUpdate s i params).1) = .ok vals ∧
          r.lookup "values" = some (.list (plOf vals)) := by
  obtain ⟨e2, hg, hk2, hp2, hb2⟩ :=
    arrayUpdate_tracks s i params e vn xs hE hk hm hvn hvne hp hlb
  exact ⟨e2, hg, hp2, fun r hr =>
    serializeElem_array_fields (arrayUpdate s i params).1 e2 (plLen xs) r hk2 hp2 hr⟩

/-- Counterexample to claim C2 as stated: with arr = [1, 2, 3] bound to
an auto-length Array, the serialized record has length 3 as claimed but
values [0, 0, 0, 0, 0] (the five untouched default cells), not
[1, 2, 3] (visualBuilder.py lines 187-192 update only _length, never
_cells, and line 320 serializes _cells). -/
theorem c2_array_values_counterexample :
    ((hget (runOps [.newArray "arr" PyVal.none,
        .updateStep 0 [("arr", PyVal.list (plOf [.int 1, .int 2, .int 3]))]]) 0).map
      (fun e =>
        (serializeElem (runOps [.newArray "arr" PyVal.none,
          .updateStep 0 [("arr", PyVal.list (plOf [.int 1, .int 2, .int 3]))]]) e).map
          (fun r => (r.lookup "length", r.lookup "values")))) =
      some (.ok (some (.int 3),
        some (.list (plOf [.int 0, .int 0, .int 0, .int 0, .int 0])))) := rfl

/-- Witness for the amended claim C2 at concrete inputs: a fresh Array
named arr updated with arr = [1, 2, 3] serializes length 3, with the
values field taken from its own cells. -/
theorem c2_amended_witness :
    ∃ e2, hget (arrayUpdate (runOps [.newArray "arr" PyVal.none]) 0
        [("arr", PyVal.list (plOf [.int 1, .int 2, .int 3]))]).1 0 = some e2 ∧
      e2.plength = PyVal.int 3 ∧
      ∀ r, serializeElem (arrayUpdate (runOps [.newArray "arr" PyVal.none]) 0
          [("arr", PyVal.list (plOf [.int 1, .int 2, .int 3]))]).1 e2 = .ok r →
        r.lookup "length" = some (.int 3) ∧
        ∃ vals, e2.cells.mapM (serializeCell
            (arrayUpdate (runOps [.newArray "arr" PyVal.none]) 0
              [("arr", PyVal.list (plOf [.int 1, .int 2, .int 3]))]).1) = .ok vals ∧
          r.lookup "values" = some (.list (plOf vals)) :=
  c2_array_length_amended (runOps [.newArray "arr" PyVal.none]) 0
    [("arr", PyVal.list (plOf [.int 1, .int 2, .int 3]))]
    (mkArray "arr" PyVal.none) "arr" (plOf [.int 1, .int 2, .int 3])
    rfl rfl rfl rfl (by decide) rfl (by intro kv h; exact absurd h (List.not_mem_nil kv))

/-! ## Claim C1: single-owner invariant of shapes -/

/-- A heap cell read comes from the heap list. -/
theorem hget_mem (s : VBState) (i : Nat) (e : Elem) (h : hget s i = some e) :
    e ∈ s.heap := by
  unfold hget at h
  obtain ⟨hlt, hEq⟩ := List.getElem?_eq_some.mp h
  exact hEq ▸ List.getElem_mem hlt

/-- A live id is within the heap. -/
theorem hget_lt (s : VBState) (i : Nat) (e : Elem) (h : hget s i = some e) :
    i < s.heap.length :=
  (List.getElem?_eq_some.mp h).1

/-- The boolean ownership scan is the proposition OwnP. -/
theorem shapeOwnInvB_iff (s : VBState) : shapeOwnInvB s = true ↔ OwnP s := by
  unfold shapeOwnInvB OwnP
  rw [List.all_eq_true]
  constructor
  · intro h i e hg hs
    have hb := h e (hget_mem s i e hg)
    simp only [hs, Bool.not_eq_true', Bool.and_eq_false_iff] at hb
    rcases hb with hb | hb
    · rcases hb with hb | hb
      · exact absurd hb (by simp)
      · exact Or.inl (Option.not_isSome_iff_eq_none.mp (by simp [hb]))
    · exact Or.inr (Option.not_isSome_iff_eq_none.mp (by simp [hb]))
  · intro h e hm
    obtain ⟨i, hlt, hEq⟩ := List.mem_iff_getElem.mp hm
    have hg : hget s i = some e := by
      unfold hget
      rw [List.getElem?_eq_getElem hlt, hEq]
    by_cases hs : isShapeKind e.kind = true
    · rcases h i e hg hs with hp | ho
      · simp [hp]
      · simp [ho]
    · simp [Bool.not_eq_true] at hs
      simp [hs]

/-- The boolean parent-membership scan is the proposition PMemP. -/
theorem parentMemB_iff (s : VBState) : parentMemB s = true ↔ PMemP s := by
  unfold parentMemB PMemP
  rw [List.all_eq_true]
  constructor
  · intro h i e p hg hpar
    have hb := h i (List.mem_range.mpr (hget_lt s i e hg))
    simp only [hg, hpar] at hb
    cases hq : hget s p with
    | none => rw [hq] at hb; exact Bool.noConfusion hb
    | some pe =>
      rw [hq] at hb
      exact ⟨pe, rfl, by simpa using hb⟩
  · intro h
    intro i hi
    cases hg : hget s i with
    | none => simp
    | some e =>
      simp only []
      cases hpar : e.parent with
      | none => simp
      | some p =>
        obtain ⟨pe, hq, hmem⟩ := h i e p hg hpar
        simp [hq, hmem]

/-- OwnP transports along any heap change that preserves every
ownership-relevant projection. -/
theorem ownP_of_frame4 (s s' : VBState)
    (h : ∀ a, (hget s' a).map frame4 = (hget s a).map frame4) :
    OwnP s → OwnP s' := by
  intro hs i e hg hshape
  have h2 := h i
  rw [hg] at h2
  cases hg0 : hget s i with
  | none =>
    rw [hg0] at h2
    exact Option.noConfusion h2
  | some e0 =>
    rw [hg0] at h2
    obtain ⟨hk, hp, hc, ho⟩ : e.kind = e0.kind ∧ e.parent = e0.parent ∧
        e.children = e0.children ∧ e.arrayOwner = e0.arrayOwner := by
      simpa [frame4, Prod.ext_iff] using h2
    rcases hs i e0 hg0 (by rw [← hk]; exact hshape) with h4 | h4
    · exact Or.inl (hp.trans h4)
    · exact Or.inr (ho.trans h4)

/-- PMemP transports along any heap change that preserves every
ownership-relevant projection. -/
theorem pmemP_of_frame4 (s s' : VBState)
    (h : ∀ a, (hget s' a).map frame4 = (hget s a).map frame4) :
    PMemP s → PMemP s' := by
  intro hs i e p hg hpar
  have h2 := h i
  rw [hg] at h2
  cases hg0 : hget s i with
  | none =>
    rw [hg0] at h2
    exact Option.noConfusion h2
  | some e0 =>
    rw [hg0] at h2
    obtain ⟨hk, hp, hc, ho⟩ : e.kind = e0.kind ∧ e.parent = e0.parent ∧
        e.children = e0.children ∧ e.arrayOwner = e0.arrayOwner := by
      simpa [frame4, Prod.ext_iff] using h2
    obtain ⟨pe0, hq0, hmem⟩ := hs i e0 p hg0 (hp.symm.trans hpar)
    have h3 := h p
    rw [hq0] at h3
    cases hq' : hget s' p with
    | none =>
      rw [hq'] at h3
      exact Option.noConfusion h3
    | some pe' =>
      rw [hq'] at h3
      obtain ⟨hk', hp', hc', ho'⟩ : pe'.kind = pe0.kind ∧ pe'.parent = pe0.parent ∧
          pe'.children = pe0.children ∧ pe'.arrayOwner = pe0.arrayOwner := by
        simpa [frame4, Prod.ext_iff] using h3
      exact ⟨pe', rfl, by rw [hc']; exact hmem⟩

/-- Heap reads after an allocation. -/
theorem allocElem_hget (s : VBState) (e : Elem) (a : Nat) :
    hget (allocElem s e) a =
      if a = s.heap.length then some e else hget s a := by
  unfold allocElem hget
  by_cases hlt : a < s.heap.length
  · rw [if_neg (Nat.ne_of_lt hlt)]
    show (s.heap ++ [e])[a]? = s.heap[a]?
    rw [List.getElem?_append, if_pos hlt]
  · by_cases heq : a = s.heap.length
    · subst heq
      rw [if_pos rfl]
      show (s.heap ++ [e])[s.heap.length]? = some e
      rw [List.getElem?_append, if_neg (Nat.lt_irrefl _), Nat.sub_self]
      rfl
    · rw [if_neg heq]
      show (s.heap ++ [e])[a]? = s.heap[a]?
      rw [List.getElem?_append, if_neg hlt,
        List.getElem?_eq_none (show ([e] : List Elem).length ≤ a - s.heap.length by
          simp; omega),
        List.getElem?_eq_none (Nat.le_of_not_lt hlt)]

/-- Allocating a parentless element preserves the single-owner
invariant. -/
theorem ownP_alloc (s : VBState) (e : Elem) (hp : e.parent = Option.none) :
    OwnP s → OwnP (allocElem s e) := by
  intro hs i e0 hg hshape
  rw [allocElem_hget] at hg
  by_cases hi : i = s.heap.length
  · rw [if_pos hi] at hg
    injection hg with hg
    subst hg
    exact Or.inl hp
  · rw [if_neg hi] at hg
    exact hs i e0 hg hshape

/-- Allocating a parentless element preserves parent-membership. -/
theorem pmemP_alloc (s : VBState) (e : Elem) (hp : e.parent = Option.none) :
    PMemP s → PMemP (allocElem s e) := by
  intro hs i e0 p hg hpar
  rw [allocElem_hget] at hg
  by_cases hi : i = s.heap.length
  · rw [if_pos hi] at hg
    injection hg with hg
    subst hg
    rw [hp] at hpar
    exact Option.noConfusion hpar
  · rw [if_neg hi] at hg
    obtain ⟨pe, hq, hmem⟩ := hs i e0 p hg hpar
    refine ⟨pe, ?_, hmem⟩
    rw [allocElem_hget, if_neg ?_]
    · exact hq
    · intro hcon
      subst hcon
      exact absurd (hget_lt s _ pe hq) (Nat.lt_irrefl _)

/-- object.__setattr__ never touches the ownership projection. -/
theorem setAttrObj_frame4 (e : Elem) (n : String) (v : PyVal) :
    frame4 (setAttrObj e n v) = frame4 e := by
  unfold setAttrObj
  split <;> rfl

/-- __setattr__ with a plain value never touches the ownership
projection. -/
theorem setattrLit_frame4 (e : Elem) (n : String) (v : PyVal) :
    frame4 (setattrLit e n v) = frame4 e := by
  unfold setattrLit
  rw [show frame4 { setAttrObj e n v with
      bindings := alErase (setAttrObj e n v).bindings n } =
    frame4 (setAttrObj e n v) from rfl]
  exact setAttrObj_frame4 e n v

/-- __setattr__ with a V value never touches the ownership projection. -/
theorem setattrBind_frame4 (e : Elem) (n : String) (ex : VExpr) :
    frame4 (setattrBind e n ex) = frame4 e := rfl

/-- The binding-resolution fold never touches the ownership projection. -/
theorem genUpd_fold_frame4 (l : List (String × VExpr)) (params : List (String × PyVal))
    (acc : Elem) :
    frame4 (l.foldl
      (fun acc kv =>
        match vResolve kv.2 params with
        | some v => setAttrObj acc kv.1 v
        | Option.none => acc) acc) = frame4 acc := by
  induction l generalizing acc with
  | nil => rfl
  | cons hd t ih =>
    rw [List.foldl_cons, ih]
    cases hr : vResolve hd.2 params with
    | none => simp only [hr]
    | some v => simp only [hr, setAttrObj_frame4]

/-- VisualElem.update never touches the ownership projection. -/
theorem genericUpdate_frame4 (e : Elem) (params : List (String × PyVal)) :
    frame4 (genericUpdate e params) = frame4 e :=
  genUpd_fold_frame4 e.bindings params e

/-- The serializer id-assignment loop only writes _vb_id slots. -/
theorem assignIds_frame4 (s : VBState) (a : Nat) :
    (hget (assignIds s) a).map frame4 = (hget s a).map frame4 := by
  unfold assignIds
  refine foldl_pres
    (fun st => (hget st a).map frame4 = (hget s a).map frame4) _ ?_ _ _ rfl
  intro st pr hP
  rw [hget_map_hmodify st pr.2 a
    (fun e => { e with vbId := some (vbIdStr e.kind (pr.1 + 1)) }) frame4
    (fun e => rfl), hP]

/-- A serialization pass only writes _vb_id slots. -/
theorem serializeVB_frame4 (s : VBState) (a : Nat) :
    (hget (serializeVB s).2 a).map frame4 = (hget s a).map frame4 := by
  unfold serializeVB
  exact assignIds_frame4 s a

/-- Array.update never touches the ownership projection of any heap
slot. -/
theorem arrayUpdate_frame4 (s : VBState) (i : Nat)
    (params : List (String × PyVal)) (a : Nat) :
    (hget (arrayUpdate s i params).1 a).map frame4 = (hget s a).map frame4 := by
  have main : ∀ e1 : Elem, hget s i = some e1 →
      ∀ e2 : Elem, frame4 e2 = frame4 e1 →
      (hget ((
        (genericUpdate e2 params).cellBindings.foldl
          (fun acc kv =>
            match acc with
            | (st, some err) => (st, some err)
            | (st, Option.none) =>
              match hget st i with
              | Option.none => (st, some VErr.badTarget)
              | some arrNow =>
                if kv.1 < (arrNow.cells.length : Int) then
                  match pyListSet arrNow.cells kv.1 (Cell.map (resolveCellMap kv.2 params)) with
                  | some cells2 => (hset st i { arrNow with cells := cells2 }, Option.none)
                  | Option.none => (st, some VErr.indexError)
                else (st, Option.none))
          ((genericUpdate e2 params).cells.foldl
            (fun st c =>
              match c with
              | Cell.elem cid => hmodify st cid (fun ce => genericUpdate ce params)
              | _ => st)
            (hset s i (genericUpdate e2 params)), Option.none)).1) a).map frame4 =
      (hget s a).map frame4 := by
    intro e1 hE e2 hf
    refine foldl_pres
      (fun acc : VBState × Option VErr =>
        (hget acc.1 a).map frame4 = (hget s a).map frame4) _ ?step2 _ _ ?base2
    case base2 =>
      refine foldl_pres
        (fun st => (hget st a).map frame4 = (hget s a).map frame4) _ ?step1 _ _ ?base1
      case base1 =>
        exact hget_map_hset s i a e1 (genericUpdate e2 params) hE frame4
          ((genericUpdate_frame4 e2 params).trans hf)
      case step1 =>
        intro st c hP
        cases c with
        | val v => exact hP
        | map m => exact hP
        | elem cid =>
          rw [hget_map_hmodify st cid a (fun ce => genericUpdate ce params) frame4
            (fun ce => genericUpdate_frame4 ce params)]
          exact hP
    case step2 =>
      rintro ⟨st, err⟩ kv hP
      cases err with
      | some e' => exact hP
      | none =>
        cases hq : hget st i with
        | none =>
          simp only [hq]
          exact hP
        | some arrNow =>
          simp only [hq]
          by_cases hlt : kv.1 < (arrNow.cells.length : Int)
          · rw [if_pos hlt]
            cases hps : pyListSet arrNow.cells kv.1 (.map (resolveCellMap kv.2 params)) with
            | none =>
              simp only [hps]
              exact hP
            | some cells2 =>
              simp only [hps]
              rw [hget_map_hset st i a arrNow { arrNow with cells := cells2 } hq
                frame4 rfl]
              exact hP
          · rw [if_neg hlt]
            exact hP
  unfold arrayUpdate
  cases hE : hget s i with
  | none => simp only [hE]
  | some e =>
    simp only [hE]
    repeat' split
    all_goals exact main e hE _ rfl

/-- The per-element update dispatch never touches the ownership
projection of any heap slot. -/
theorem elemUpdate_frame4 (s : VBState) (i : Nat)
    (params : List (String × PyVal)) (a : Nat) :
    (hget (elemUpdate s i params).1 a).map frame4 = (hget s a).map frame4 := by
  unfold elemUpdate
  cases hE : hget s i with
  | none => simp only [hE]
  | some e =>
    simp only [hE]
    by_cases hk : e.kind = .array
    · rw [if_pos hk]
      exact arrayUpdate_frame4 s i params a
    · rw [if_neg hk]
      exact hget_map_hset s i a e (genericUpdate e params) hE frame4
        (genericUpdate_frame4 e params)

/-- The literal-property operation never touches the ownership
projection. -/
theorem setL_frame4 (s : VBState) (i : Nat) (n : String) (v : PyVal) (a : Nat) :
    (hget (hmodify s i (fun e => setattrLit e n v)) a).map frame4 =
      (hget s a).map frame4 :=
  hget_map_hmodify s i a (fun e => setattrLit e n v) frame4
    (fun e => setattrLit_frame4 e n v)

/-- The bound-property operation never touches the ownership
projection. -/
theorem setB_frame4 (s : VBState) (i : Nat) (n : String) (ex : VExpr) (a : Nat) :
    (hget (hmodify s i (fun e => setattrBind e n ex)) a).map frame4 =
      (hget s a).map frame4 :=
  hget_map_hmodify s i a (fun e => setattrBind e n ex) frame4
    (fun e => setattrBind_frame4 e n ex)

/-- Heap reads after Panel.add on a live panel not already holding the
child: the panel gains the child, the child takes the parent pointer. -/
theorem panelAddF_hget (s : VBState) (p c : Nat) (pe : Elem)
    (hq : hget s p = some pe) (hkp : pe.kind = .panel) (hcm : c ∉ pe.children)
    (x : Nat) :
    hget (panelAddF s p c) x =
      (hget s x).map (fun ex =>
        let ex1 := if x = p then { ex with children := ex.children ++ [c] } else ex
        if x = c then { ex1 with parent := some p } else ex1) := by
  unfold panelAddF
  simp only [hq]
  rw [if_pos hkp, if_neg hcm]
  have h1 : ∀ y, hget (hset s p { pe with children := pe.children ++ [c] }) y =
      (hget s y).map (fun ex =>
        if y = p then { ex with children := ex.children ++ [c] } else ex) := by
    intro y
    by_cases hyp : y = p
    · subst hyp
      rw [hget_hset_self s y _ pe hq, hq]
      simp
    · rw [hget_hset_ne s p y _ (fun hh => hyp hh.symm)]
      cases hget s y <;> simp [hyp]
  cases hc1 : hget (hset s p { pe with children := pe.children ++ [c] }) c with
  | none =>
    rw [hmodify_of_none _ c _ hc1, h1 x]
    by_cases hxc : x = c
    · subst hxc
      have hsc : hget s x = Option.none := by
        have := h1 x
        rw [hc1] at this
        cases hv : hget s x
        · rfl
        · rw [hv] at this
          exact Option.noConfusion this
      rw [hsc]
      rfl
    · cases hget s x <;> simp [hxc]
  | some ce1 =>
    have hstep : hmodify (hset s p { pe with children := pe.children ++ [c] }) c
        (fun e => { e with parent := some p }) =
        hset (hset s p { pe with children := pe.children ++ [c] }) c
          { ce1 with parent := some p } := by
      unfold hmodify
      rw [show (hset s p { pe with children := pe.children ++ [c] }).heap[c]? =
        hget (hset s p { pe with children := pe.children ++ [c] }) c from rfl, hc1]
    rw [hstep]
    by_cases hxc : x = c
    · subst hxc
      rw [hget_hset_self _ x _ ce1 hc1]
      have h2 := h1 x
      rw [hc1] at h2
      cases hv : hget s x with
      | none =>
        rw [hv] at h2
        exact absurd h2.symm (Option.noConfusion)
      | some ex =>
        rw [hv] at h2
        simp only [Option.map_some'] at h2 ⊢
        injection h2 with h2
        rw [← h2]
        simp
    · rw [hget_hset_ne _ c x _ (fun hh => hxc hh.symm), h1 x]
      cases hget s x <;> simp [hxc]

/-- Panel.add preserves the single-owner invariant when the added child
is not array-owned (the guard of the amended claim). -/
theorem ownP_panelAddF (s : VBState) (p c : Nat)
    (hguard : ∀ ce, hget s c = some ce → ce.arrayOwner = Option.none) :
    OwnP s → OwnP (panelAddF s p c) := by
  intro hs
  cases hq : hget s p with
  | none =>
    unfold panelAddF
    simp only [hq]
    exact hs
  | some pe =>
    by_cases hkp : pe.kind = .panel
    · by_cases hcm : c ∈ pe.children
      · unfold panelAddF
        simp only [hq]
        rw [if_pos hkp, if_pos hcm]
        exact hs
      · have hchar := panelAddF_hget s p c pe hq hkp hcm
        intro i e0 hg hshape
        rw [hchar i] at hg
        cases hg0 : hget s i with
        | none =>
          rw [hg0] at hg
          exact Option.noConfusion hg
        | some ex =>
          rw [hg0] at hg
          simp only [Option.map_some'] at hg
          injection hg with he0
          by_cases hic : i = c
          · subst hic
            have ho : e0.arrayOwner = ex.arrayOwner := by
              rw [← he0]
              by_cases hcp : i = p <;> simp [hcp]
            exact Or.inr (ho.trans (hguard ex hg0))
          · have he0' : e0 = if i = p then { ex with children := ex.children ++ [c] }
                else ex := by
              rw [← he0]
              simp [hic]
            have hk2 : e0.kind = ex.kind := by
              rw [he0']
              split <;> rfl
            have hp2 : e0.parent = ex.parent := by
              rw [he0']
              split <;> rfl
            have ho2 : e0.arrayOwner = ex.arrayOwner := by
              rw [he0']
              split <;> rfl
            rcases hs i ex hg0 (by rw [← hk2]; exact hshape) with h4 | h4
            · exact Or.inl (hp2.trans h4)
            · exact Or.inr (ho2.trans h4)
    · unfold panelAddF
      simp only [hq]
      rw [if_neg hkp]
      exact hs

/-- Panel.add preserves parent-membership unconditionally. -/
theorem pmemP_panelAddF (s : VBState) (p c : Nat) :
    PMemP s → PMemP (panelAddF s p c) := by
  intro hs
  cases hq : hget s p with
  | none =>
    unfold panelAddF
    simp only [hq]
    exact hs
  | some pe =>
    by_cases hkp : pe.kind = .panel
    · by_cases hcm : c ∈ pe.children
      · unfold panelAddF
        simp only [hq]
        rw [if_pos hkp, if_pos hcm]
        exact hs
      · have hchar := panelAddF_hget s p c pe hq hkp hcm
        intro i e0 q hg hpar
        rw [hchar i] at hg
        cases hg0 : hget s i with
        | none =>
          rw [hg0] at hg
          exact Option.noConfusion hg
        | some ex =>
          rw [hg0] at hg
          simp only [Option.map_some'] at hg
          injection hg with he0
          by_cases hic : i = c
          · subst hic
            have hqp : p = q := by
              rw [← he0] at hpar
              simpa using hpar
            subst hqp
            have hp' := hchar p
            rw [hq] at hp'
            simp only [Option.map_some'] at hp'
            refine ⟨_, hp', ?_⟩
            by_cases hpc : p = i <;> simp [hpc]
          · have he0' : e0 = if i = p then { ex with children := ex.children ++ [c] }
                else ex := by
              rw [← he0]
              simp [hic]
            have hpar' : ex.parent = some q := by
              rw [he0'] at hpar
              revert hpar
              split <;> exact id
            obtain ⟨qe, hqe, hmem⟩ := hs i ex q hg0 hpar'
            have hqchar := hchar q
            rw [hqe] at hqchar
            simp only [Option.map_some'] at hqchar
            refine ⟨_, hqchar, ?_⟩
            by_cases hqp2 : q = p <;> by_cases hqc : q = c <;>
              simp [hqp2, hqc, hmem] <;> split <;> simp [hmem]
    · unfold panelAddF
      simp only [hq]
      rw [if_neg hkp]
      exact hs

/-- Heap reads after Panel.remove of a present child. -/
theorem panelRemoveF_hget (s : VBState) (p c : Nat) (pe : Elem)
    (hq : hget s p = some pe) (hcm : c ∈ pe.children) (x : Nat) :
    hget (panelRemoveF s p c) x =
      (hget s x).map (fun ex =>
        let ex1 := if x = p then { ex with children := ex.children.erase c } else ex
        if x = c then { ex1 with parent := Option.none } else ex1) := by
  unfold panelRemoveF
  simp only [hq]
  rw [if_pos hcm]
  have h1 : ∀ y, hget (hset s p { pe with children := pe.children.erase c }) y =
      (hget s y).map (fun ex =>
        if y = p then { ex with children := ex.children.erase c } else ex) := by
    intro y
    by_cases hyp : y = p
    · subst hyp
      rw [hget_hset_self s y _ pe hq, hq]
      simp
    · rw [hget_hset_ne s p y _ (fun hh => hyp hh.symm)]
      cases hget s y <;> simp [hyp]
  cases hc1 : hget (hset s p { pe with children := pe.children.erase c }) c with
  | none =>
    rw [hmodify_of_none _ c _ hc1, h1 x]
    by_cases hxc : x = c
    · subst hxc
      have hsc : hget s x = Option.none := by
        have := h1 x
        rw [hc1] at this
        cases hv : hget s x
        · rfl
        · rw [hv] at this
          exact Option.noConfusion this
      rw [hsc]
      rfl
    · cases hget s x <;> simp [hxc]
  | some ce1 =>
    have hstep : hmodify (hset s p { pe with children := pe.children.erase c }) c
        (fun e => { e with parent := Option.none }) =
        hset (hset s p { pe with children := pe.children.erase c }) c
          { ce1 with parent := Option.none } := by
      unfold hmodify
      rw [show (hset s p { pe with children := pe.children.erase c }).heap[c]? =
        hget (hset s p { pe with children := pe.children.erase c }) c from rfl, hc1]
    rw [hstep]
    by_cases hxc : x = c
    · subst hxc
      rw [hget_hset_self _ x _ ce1 hc1]
      have h2 := h1 x
      rw [hc1] at h2
      cases hv : hget s x with
      | none =>
        rw [hv] at h2
        exact absurd h2.symm (Option.noConfusion)
      | some ex =>
        rw [hv] at h2
        simp only [Option.map_some'] at h2 ⊢
        injection h2 with h2
        rw [← h2]
        simp
    · rw [hget_hset_ne _ c x _ (fun hh => hxc hh.symm), h1 x]
      cases hget s x <;> simp [hxc]

/-- Panel.remove preserves the single-owner invariant. -/
theorem ownP_panelRemoveF (s : VBState) (p c : Nat) :
    OwnP s → OwnP (panelRemoveF s p c) := by
  intro hs
  cases hq : hget s p with
  | none =>
    unfold panelRemoveF
    simp only [hq]
    exact hs
  | some pe =>
    by_cases hcm : c ∈ pe.children
    · have hchar := panelRemoveF_hget s p c pe hq hcm
      intro i e0 hg hshape
      rw [hchar i] at hg
      cases hg0 : hget s i with
      | none =>
        rw [hg0] at hg
        exact Option.noConfusion hg
      | some ex =>
        rw [hg0] at hg
        simp only [Option.map_some'] at hg
        injection hg with he0
        by_cases hic : i = c
        · subst hic
          have hp2 : e0.parent = Option.none := by
            rw [← he0]
            by_cases hcp : i = p <;> simp [hcp]
          exact Or.inl hp2
        · have he0' : e0 = if i = p then { ex with children := ex.children.erase c }
              else ex := by
            rw [← he0]
            simp [hic]
          have hk2 : e0.kind = ex.kind := by
            rw [he0']
            split <;> rfl
          have hp2 : e0.parent = ex.parent := by
            rw [he0']
            split <;> rfl
          have ho2 : e0.arrayOwner = ex.arrayOwner := by
            rw [he0']
            split <;> rfl
          rcases hs i ex hg0 (by rw [← hk2]; exact hshape) with h4 | h4
          · exact Or.inl (hp2.trans h4)
          · exact Or.inr (ho2.trans h4)
    · unfold panelRemoveF
      simp only [hq]
      rw [if_neg hcm]
      exact hs

/-- Panel.remove preserves parent-membership. -/
theorem pmemP_panelRemoveF (s : VBState) (p c : Nat) :
    PMemP s → PMemP (panelRemoveF s p c) := by
  intro hs
  cases hq : hget s p with
  | none =>
    unfold panelRemoveF
    simp only [hq]
    exact hs
  | some pe =>
    by_cases hcm : c ∈ pe.children
    · have hchar := panelRemoveF_hget s p c pe hq hcm
      intro i e0 q hg hpar
      rw [hchar i] at hg
      cases hg0 : hget s i with
      | none =>
        rw [hg0] at hg
        exact Option.noConfusion hg
      | some ex =>
        rw [hg0] at hg
        simp only [Option.map_some'] at hg
        injection hg with he0
        by_cases hic : i = c
        · subst hic
          have hp2 : e0.parent = Option.none := by
            rw [← he0]
            by_cases hcp : i = p <;> simp [hcp]
          rw [hp2] at hpar
          exact Option.noConfusion hpar
        · have he0' : e0 = if i = p then { ex with children := ex.children.erase c }
              else ex := by
            rw [← he0]
            simp [hic]
          have hpar' : ex.parent = some q := by
            rw [he0'] at hpar
            revert hpar
            split <;> exact id
          obtain ⟨qe, hqe, hmem⟩ := hs i ex q hg0 hpar'
          have hqchar := hchar q
          rw [hqe] at hqchar
          simp only [Option.map_some'] at hqchar
          refine ⟨_, hqchar, ?_⟩
          have hmem2 : i ∈ qe.children.erase c := (List.mem_erase_of_ne hic).mpr hmem
          by_cases hqp2 : q = p <;> by_cases hqc : q = c <;>
            simp [hqp2, hqc, hmem, hmem2] <;> split <;> simp [hmem, hmem2]
    · unfold panelRemoveF
      simp only [hq]
      rw [if_neg hcm]
      exact hs

/-- Panel.remove of a present child clears the removed child's parent
pointer. -/
theorem panelRemoveF_parent_clear (s : VBState) (p c : Nat) (pe : Elem)
    (hq : hget s p = some pe) (hcm : c ∈ pe.children) :
    ∀ ce2, hget (panelRemoveF s p c) c = some ce2 → ce2.parent = Option.none := by
  intro ce2 hg
  rw [panelRemoveF_hget s p c pe hq hcm c] at hg
  cases hv : hget s c with
  | none =>
    rw [hv] at hg
    exact Option.noConfusion hg
  | some ce =>
    rw [hv] at hg
    simp only [Option.map_some'] at hg
    injection hg with hg
    rw [← hg]
    by_cases hcp : c = p <;> simp [hcp]

/-- The ownership-transfer tail of Array.__setitem__ preserves both
invariants provided the incoming shape's parent is already cleared. -/
theorem absorbOwn_pres (s2 : VBState) (a : Nat) (idx : Int) (c : Nat)
    (hco : ∀ ce2, hget s2 c = some ce2 → ce2.parent = Option.none)
    (hs2 : OwnP s2) (hm2 : PMemP s2) :
    OwnP (arrayAbsorbOwn s2 a idx c).1 ∧ PMemP (arrayAbsorbOwn s2 a idx c).1 := by
  unfold arrayAbsorbOwn
  dsimp only
  have hreg : ∀ x, hget { s2 with registry := s2.registry.erase c } x = hget s2 x :=
    fun x => rfl
  cases hc : hget { s2 with registry := s2.registry.erase c } c with
  | none =>
    rw [hmodify_of_none _ c _ hc]
    have hs3 : OwnP { s2 with registry := s2.registry.erase c } :=
      fun i e hg hsh => hs2 i e ((hreg i) ▸ hg) hsh
    have hm3 : PMemP { s2 with registry := s2.registry.erase c } :=
      fun i e p hg hp =>
        let ⟨pe, hq, hm⟩ := hm2 i e p ((hreg i) ▸ hg) hp
        ⟨pe, (hreg p).symm ▸ hq, hm⟩
    cases hga : hget { s2 with registry := s2.registry.erase c } a with
    | none =>
      simp only [hga]
      exact ⟨hs3, hm3⟩
    | some arrNow =>
      simp only [hga]
      unfold absorbStore2
      cases hps : pyListSet arrNow.cells idx (.elem c) with
      | some cells2 =>
        simp only [hps]
        constructor
        · refine ownP_of_frame4 _ _ (fun x => ?_) hs3
          exact hget_map_hset _ a x arrNow { arrNow with cells := cells2 } hga
            frame4 rfl
        · refine pmemP_of_frame4 _ _ (fun x => ?_) hm3
          exact hget_map_hset _ a x arrNow { arrNow with cells := cells2 } hga
            frame4 rfl
      | none =>
        simp only [hps]
        exact ⟨hs3, hm3⟩
  | some ce2 =>
    have hstep : hmodify { s2 with registry := s2.registry.erase c } c
        (fun x => { x with arrayOwner := some a }) =
        hset { s2 with registry := s2.registry.erase c } c
          { ce2 with arrayOwner := some a } := by
      unfold hmodify
      rw [show ({ s2 with registry := s2.registry.erase c } : VBState).heap[c]? =
        hget { s2 with registry := s2.registry.erase c } c from rfl, hc]
    rw [hstep]
    have hpc : ce2.parent = Option.none := hco ce2 ((hreg c) ▸ hc)
    have hs4 : OwnP (hset { s2 with registry := s2.registry.erase c } c
        { ce2 with arrayOwner := some a }) := by
      intro i e0 hg hsh
      by_cases hicc : i = c
      · subst hicc
        rw [hget_hset_self _ i _ ce2 hc] at hg
        injection hg with hg
        rw [← hg]
        exact Or.inl hpc
      · rw [hget_hset_ne _ c i _ (fun hh => hicc hh.symm), hreg i] at hg
        exact hs2 i e0 hg hsh
    have hm4 : PMemP (hset { s2 with registry := s2.registry.erase c } c
        { ce2 with arrayOwner := some a }) := by
      intro i e0 q hg hp
      by_cases hicc : i = c
      · subst hicc
        rw [hget_hset_self _ i _ ce2 hc] at hg
        injection hg with hg
        rw [← hg] at hp
        rw [show ({ ce2 with arrayOwner := some a } : Elem).parent = ce2.parent
          from rfl, hpc] at hp
        exact Option.noConfusion hp
      · rw [hget_hset_ne _ c i _ (fun hh => hicc hh.symm), hreg i] at hg
        obtain ⟨qe, hqe, hmem⟩ := hm2 i e0 q hg hp
        by_cases hqc : q = c
        · subst hqc
          refine ⟨{ ce2 with arrayOwner := some a }, hget_hset_self _ q _ ce2 hc, ?_⟩
          have hqe2 : qe = ce2 := by
            rw [hreg q] at hc
            rw [hqe] at hc
            injection hc
          rw [show ({ ce2 with arrayOwner := some a } : Elem).children = ce2.children
            from rfl, ← hqe2]
          exact hmem
        · exact ⟨qe, by
            rw [hget_hset_ne _ c q _ (fun hh => hqc hh.symm), hreg q]
            exact hqe, hmem⟩
    cases hga : hget (hset { s2 with registry := s2.registry.erase c } c
        { ce2 with arrayOwner := some a }) a with
    | none =>
      simp only [hga]
      exact ⟨hs4, hm4⟩
    | some arrNow =>
      simp only [hga]
      unfold absorbStore2
      cases hps : pyListSet arrNow.cells idx (.elem c) with
      | some cells2 =>
        simp only [hps]
        constructor
        · refine ownP_of_frame4 _ _ (fun x => ?_) hs4
          exact hget_map_hset _ a x arrNow { arrNow with cells := cells2 } hga
            frame4 rfl
        · refine pmemP_of_frame4 _ _ (fun x => ?_) hm4
          exact hget_map_hset _ a x arrNow { arrNow with cells := cells2 } hga
            frame4 rfl
      | none =>
        simp only [hps]
        exact ⟨hs4, hm4⟩

/-- The full shape-absorption path of Array.__setitem__ preserves both
invariants: a same-panel parent is cleared through Panel.remove before
the owner mark is written. -/
theorem absorb_pres (s1 : VBState) (a : Nat) (G : Elem) (idx : Int) (c : Nat)
    (ce : Elem) (hc : hget s1 c = some ce)
    (hs1 : OwnP s1) (hm1 : PMemP s1) :
    OwnP (arrayAbsorb s1 a G idx c ce).1 ∧ PMemP (arrayAbsorb s1 a G idx c ce).1 := by
  unfold arrayAbsorb
  cases hcp : ce.parent with
  | none =>
    dsimp only
    exact absorbOwn_pres s1 a idx c
      (fun ce2 hg2 => by
        rw [hc] at hg2
        injection hg2 with hg2
        rw [← hg2]
        exact hcp) hs1 hm1
  | some p =>
    dsimp only
    by_cases hgp : G.parent = some p
    · rw [if_pos hgp]
      obtain ⟨pe1, hq1, hmem1⟩ := hm1 c ce p hc hcp
      exact absorbOwn_pres (panelRemoveF s1 p c) a idx c
        (panelRemoveF_parent_clear s1 p c pe1 hq1 hmem1)
        (ownP_panelRemoveF s1 p c hs1) (pmemP_panelRemoveF s1 p c hm1)
    · rw [if_neg hgp]
      exact ⟨hs1, hm1⟩

/-- Array.__setitem__ preserves the single-owner invariant and
parent-membership on every branch, error or not. -/
theorem ownPmem_arraySetitem (s : VBState) (a : Nat) (idx : Int) (v : SetVal)
    (hs : OwnP s) (hm : PMemP s) :
    OwnP (arraySetitem s a idx v).1 ∧ PMemP (arraySetitem s a idx v).1 := by
  unfold arraySetitem
  cases hq : hget s a with
  | none =>
    simp only [hq]
    exact ⟨hs, hm⟩
  | some arr0 =>
    simp only [hq]
    have hgf : frame4 (if ((arr0.cells.length : Int)) ≤ idx
        then growElem arr0 idx else arr0) = frame4 arr0 := by
      split
      · unfold growElem
        rfl
      · rfl
    set G := if ((arr0.cells.length : Int)) ≤ idx then growElem arr0 idx else arr0
      with hGdef
    have hmap1 : ∀ x, (hget (hset s a G) x).map frame4 = (hget s x).map frame4 :=
      fun x => hget_map_hset s a x arr0 G hq frame4 hgf
    have hs1 : OwnP (hset s a G) := ownP_of_frame4 s _ hmap1 hs
    have hm1 : PMemP (hset s a G) := pmemP_of_frame4 s _ hmap1 hm
    have hga1 : hget (hset s a G) a = some G := hget_hset_self s a G arr0 hq
    cases v with
    | plain pv =>
      unfold arraySetPlain
      cases hps : pyListSet G.cells idx (.val pv) with
      | some cells2 =>
        simp only [hps]
        constructor
        · refine ownP_of_frame4 _ _ (fun x => ?_) hs1
          exact hget_map_hset _ a x G { G with cells := cells2 } hga1 frame4 rfl
        · refine pmemP_of_frame4 _ _ (fun x => ?_) hm1
          exact hget_map_hset _ a x G { G with cells := cells2 } hga1 frame4 rfl
      | none =>
        simp only [hps]
        exact ⟨hs1, hm1⟩
    | dmap entries =>
      unfold arraySetDict
      have hdf : frame4 (dictGrown G idx entries) = frame4 G := by
        unfold dictGrown
        split
        · rfl
        · split <;> rfl
      cases hps : pyListSet (dictGrown G idx entries).cells idx (.map entries) with
      | some cells2 =>
        simp only [hps]
        constructor
        · refine ownP_of_frame4 _ _ (fun x => ?_) hs1
          exact hget_map_hset _ a x G
            { dictGrown G idx entries with cells := cells2 } hga1 frame4 hdf
        · refine pmemP_of_frame4 _ _ (fun x => ?_) hm1
          exact hget_map_hset _ a x G
            { dictGrown G idx entries with cells := cells2 } hga1 frame4 hdf
      | none =>
        simp only [hps]
        constructor
        · refine ownP_of_frame4 _ _ (fun x => ?_) hs1
          exact hget_map_hset _ a x G (dictGrown G idx entries) hga1 frame4 hdf
        · refine pmemP_of_frame4 _ _ (fun x => ?_) hm1
          exact hget_map_hset _ a x G (dictGrown G idx entries) hga1 frame4 hdf
    | ref c =>
      unfold arraySetRef
      cases hc : hget (hset s a G) c with
      | none =>
        simp only [hc]
        exact ⟨hs1, hm1⟩
      | some ce =>
        simp only [hc]
        unfold arraySetRefCk
        by_cases hsh : isShapeKind ce.kind
        · rw [if_neg (by simpa using hsh)]
          unfold arraySetRefOwn
          cases ho : ce.arrayOwner with
          | none =>
            dsimp only
            exact absorb_pres _ a G idx c ce hc hs1 hm1
          | some o =>
            unfold arraySetRefOwnChk
            dsimp only
            by_cases hoa : o ≠ a
            · rw [if_pos hoa]
              exact ⟨hs1, hm1⟩
            · rw [if_neg hoa]
              exact absorb_pres _ a G idx c ce hc hs1 hm1
        · rw [if_pos (by simpa using hsh)]
          exact ⟨hs1, hm1⟩

/-- The author-facing Panel.remove preserves the single-owner
invariant. -/
theorem ownP_panelRemoveOp (s : VBState) (p c : Nat) :
    OwnP s → OwnP (panelRemoveOp s p c) := by
  intro hs
  unfold panelRemoveOp
  cases hq : hget s p with
  | none => exact hs
  | some pe =>
    dsimp only
    by_cases hkp : pe.kind = .panel
    · rw [if_pos hkp]
      exact ownP_panelRemoveF s p c hs
    · rw [if_neg hkp]
      exact hs

/-- The author-facing Panel.remove preserves parent-membership. -/
theorem pmemP_panelRemoveOp (s : VBState) (p c : Nat) :
    PMemP s → PMemP (panelRemoveOp s p c) := by
  intro hm
  unfold panelRemoveOp
  cases hq : hget s p with
  | none => exact hm
  | some pe =>
    dsimp only
    by_cases hkp : pe.kind = .panel
    · rw [if_pos hkp]
      exact pmemP_panelRemoveF s p c hm
    · rw [if_neg hkp]
      exact hm

/-- Every guarded operation preserves the conjunction of the
single-owner invariant and parent-membership. -/
theorem ownPmem_step (s : VBState) (o : VOp) (hga : opAllowedB s o = true)
    (hs : OwnP s) (hm : PMemP s) : OwnP (applyOp s o) ∧ PMemP (applyOp s o) := by
  cases o with
  | newPanel nm => exact ⟨ownP_alloc s _ rfl hs, pmemP_alloc s _ rfl hm⟩
  | newRect pos => exact ⟨ownP_alloc s _ rfl hs, pmemP_alloc s _ rfl hm⟩
  | newCircle pos => exact ⟨ownP_alloc s _ rfl hs, pmemP_alloc s _ rfl hm⟩
  | newArrow pos => exact ⟨ownP_alloc s _ rfl hs, pmemP_alloc s _ rfl hm⟩
  | newLabel lbl => exact ⟨ownP_alloc s _ rfl hs, pmemP_alloc s _ rfl hm⟩
  | newVar vn => exact ⟨ownP_alloc s _ rfl hs, pmemP_alloc s _ rfl hm⟩
  | newArray vn et => exact ⟨ownP_alloc s _ rfl hs, pmemP_alloc s _ rfl hm⟩
  | setL i n v =>
    exact ⟨ownP_of_frame4 s _ (fun x => setL_frame4 s i n v x) hs,
      pmemP_of_frame4 s _ (fun x => setL_frame4 s i n v x) hm⟩
  | setB i n ex =>
    exact ⟨ownP_of_frame4 s _ (fun x => setB_frame4 s i n ex x) hs,
      pmemP_of_frame4 s _ (fun x => setB_frame4 s i n ex x) hm⟩
  | panelAdd p c =>
    have hguard : ∀ ce, hget s c = some ce → ce.arrayOwner = Option.none := by
      intro ce hgc
      unfold opAllowedB at hga
      dsimp only at hga
      rw [hgc] at hga
      dsimp only at hga
      exact Option.isNone_iff_eq_none.mp hga
    exact ⟨ownP_panelAddF s p c hguard hs, pmemP_panelAddF s p c hm⟩
  | panelRemove p c =>
    exact ⟨ownP_panelRemoveOp s p c hs, pmemP_panelRemoveOp s p c hm⟩
  | arraySet a idx v => exact ownPmem_arraySetitem s a idx v hs hm
  | updateStep i params =>
    exact ⟨ownP_of_frame4 s _ (fun x => elemUpdate_frame4 s i params x) hs,
      pmemP_of_frame4 s _ (fun x => elemUpdate_frame4 s i params x) hm⟩
  | serializePass =>
    exact ⟨ownP_of_frame4 s _ (fun x => serializeVB_frame4 s x) hs,
      pmemP_of_frame4 s _ (fun x => serializeVB_frame4 s x) hm⟩

/-- The empty model satisfies the single-owner invariant. -/
theorem ownP_init : OwnP initVB := by
  intro i e hg hsh
  simp [initVB, hget] at hg

/-- The empty model satisfies parent-membership. -/
theorem pmemP_init : PMemP initVB := by
  intro i e p hg hpar
  simp [initVB, hget] at hg

/-- Claim C1 (amended).  The single-owner invariant does hold along any
run in which Panel.add is never applied to an array-owned shape
(opAllowedB), and it is maintained by Panel.remove, by array cell
assignment, and by every other operation unconditionally.  The guard is
necessary: Panel.add itself never checks _array_owner, so the unguarded
operation language violates the invariant (see the counterexample). -/
theorem c1_ownership_amended (s : VBState) (h : ReachG s) :
    shapeOwnInvB s = true := by
  have main : OwnP s ∧ PMemP s := by
    induction h with
    | init => exact ⟨ownP_init, pmemP_init⟩
    | step s0 o hr hga ih => exact ownPmem_step s0 o hga ih.1 ih.2
  exact (shapeOwnInvB_iff s).mpr main.1

/-- Counterexample to claim C1 as stated: assigning a fresh Rect into an
array cell and then calling Panel.add on the same Rect leaves the shape
with both a panel parent and an owning array, because Panel.add
(visualBuilder.py lines 68-71) checks membership only, never
_array_owner. -/
theorem c1_ownership_counterexample :
    shapeOwnInvB (runOps [.newPanel "P", .newArray "arr" PyVal.none,
      .newRect pvPos00, .arraySet 1 0 (.ref 2), .panelAdd 0 2]) = false ∧
    (hget (runOps [.newPanel "P", .newArray "arr" PyVal.none,
      .newRect pvPos00, .arraySet 1 0 (.ref 2), .panelAdd 0 2]) 2).map
        (fun e => (e.parent, e.arrayOwner)) = some (some 0, some 1) :=
  ⟨rfl, rfl⟩

/-- Witness for the amended claim C1: a concrete guarded run (a panel
adding itself) satisfies the ownership scan. -/
theorem c1_ownership_witness :
    shapeOwnInvB (applyOp (applyOp initVB (.newPanel "P")) (.panelAdd 0 0)) = true :=
  c1_ownership_amended _
    (ReachG.step _ (.panelAdd 0 0) (ReachG.step initVB (.newPanel "P") ReachG.init rfl) rfl)

/-! ## Claim C9: serializer determinism and ordering -/

/-- Reading the modified slot after hmodify. -/
theorem hget_hmodify_map (s : VBState) (i : Nat) (f : Elem → Elem) :
    hget (hmodify s i f) i = (hget s i).map f := by
  cases h : hget s i with
  | none =>
    rw [hmodify_of_none s i f h, h]
    rfl
  | some e =>
    simp [hget_hmodify_self s i f e h, h]

/-- The id-assignment fold leaves slots outside its write list alone. -/
theorem assignFold_untouched (l : List (Nat × Nat)) (st : VBState) (x : Nat)
    (hx : ∀ pr ∈ l, pr.2 ≠ x) :
    hget (l.foldl
      (fun st pr =>
        hmodify st pr.2 (fun e => { e with vbId := some (vbIdStr e.kind (pr.1 + 1)) }))
      st) x = hget st x := by
  induction l generalizing st with
  | nil => rfl
  | cons pr0 t ih =>
    rw [List.foldl_cons, ih _ (fun pr hm => hx pr (List.mem_cons_of_mem pr0 hm))]
    exact hget_hmodify_ne st pr0.2 x _ (hx pr0 (List.mem_cons_self pr0 t))

/-- Reads after the id-assignment fold: the first matching write wins
(the write targets are distinct). -/
theorem assignFold_get (l : List (Nat × Nat)) (hnd : (l.map Prod.snd).Nodup)
    (st : VBState) (x : Nat) :
    hget (l.foldl
      (fun st pr =>
        hmodify st pr.2 (fun e => { e with vbId := some (vbIdStr e.kind (pr.1 + 1)) }))
      st) x =
      match l.find? (fun pr => pr.2 == x) with
      | some pr =>
        (hget st x).map (fun e => { e with vbId := some (vbIdStr e.kind (pr.1 + 1)) })
      | Option.none => hget st x := by
  induction l generalizing st with
  | nil => rfl
  | cons pr0 t ih =>
    have hpair : (∀ y ∈ t, ¬pr0.2 = y.2) ∧ (t.map Prod.snd).Nodup := by
      constructor
      · intro y hy hcon
        exact (List.nodup_cons.mp (by simpa using hnd)).1
          (hcon ▸ List.mem_map_of_mem Prod.snd hy)
      · exact (List.nodup_cons.mp (by simpa using hnd)).2
    by_cases hx : pr0.2 = x
    · have hfind : ((pr0 :: t).find? (fun pr => pr.2 == x)) = some pr0 := by
        simp [List.find?, hx]
      rw [hfind, List.foldl_cons,
        assignFold_untouched t _ x (fun pr hm hc => hpair.1 pr hm (hx.trans hc.symm)),
        ← hx, hget_hmodify_map]
    · have hbeq : (pr0.2 == x) = false := beq_eq_false_iff_ne.mpr hx
      have hfind : ((pr0 :: t).find? (fun pr => pr.2 == x)) =
          t.find? (fun pr => pr.2 == x) := by
        simp [List.find?, hbeq]
      rw [hfind, List.foldl_cons, ih hpair.2]
      have hst : hget (hmodify st pr0.2
          (fun e => { e with vbId := some (vbIdStr e.kind (pr0.1 + 1)) })) x =
          hget st x :=
        hget_hmodify_ne st pr0.2 x _ hx
      cases hf : t.find? (fun pr => pr.2 == x) <;> simp only [hf, hst]

/-- The id-assignment loop never changes the registry. -/
theorem assignIds_registry (s : VBState) : (assignIds s).registry = s.registry := by
  unfold assignIds
  refine foldl_pres (fun st : VBState => st.registry = s.registry) _ ?_ _ _ rfl
  intro st pr hP
  rw [hmodify_registry, hP]

/-- Reads after the id-assignment loop of a model with distinct
registry entries. -/
theorem assignIds_get (s : VBState) (hnd : s.registry.Nodup) (x : Nat) :
    hget (assignIds s) x =
      match s.registry.enum.find? (fun pr => pr.2 == x) with
      | some pr =>
        (hget s x).map (fun e => { e with vbId := some (vbIdStr e.kind (pr.1 + 1)) })
      | Option.none => hget s x := by
  unfold assignIds
  exact assignFold_get s.registry.enum
    (by rw [List.enum_map_snd]; exact hnd) s x

/-- Re-running the id-assignment loop writes the same ids again: the
heap is unchanged slot by slot. -/
theorem assignIds_get_idem (s : VBState) (hnd : s.registry.Nodup) (x : Nat) :
    hget (assignIds (assignIds s)) x = hget (assignIds s) x := by
  have hnd2 : (s.registry.enum.map Prod.snd).Nodup := by
    rw [List.enum_map_snd]
    exact hnd
  have h1 : ∀ (t : VBState), t.registry = s.registry →
      hget (assignIds t) x =
        match s.registry.enum.find? (fun pr => pr.2 == x) with
        | some pr =>
          (hget t x).map (fun e => { e with vbId := some (vbIdStr e.kind (pr.1 + 1)) })
        | Option.none => hget t x := by
    intro t ht
    unfold assignIds
    rw [ht]
    exact assignFold_get s.registry.enum hnd2 t x
  rw [h1 (assignIds s) (assignIds_registry s), h1 s rfl]
  cases hf : s.registry.enum.find? (fun pr => pr.2 == x) with
  | none => rfl
  | some pr =>
    cases hget s x with
    | none => rfl
    | some e => rfl

/-- Cell serialization only reads the state through the heap. -/
theorem serializeCell_congr (s1 s2 : VBState) (h : ∀ x, hget s2 x = hget s1 x)
    (c : Cell) : serializeCell s2 c = serializeCell s1 c := by
  cases c with
  | val v => rfl
  | map m => rfl
  | elem cid =>
    show serializeShapeCell s2 cid = serializeShapeCell s1 cid
    unfold serializeShapeCell
    rw [h cid]

/-- Cell-list serialization only reads the state through the heap. -/
theorem mapM_serializeCell_congr (s1 s2 : VBState) (h : ∀ x, hget s2 x = hget s1 x)
    (cl : List Cell) : cl.mapM (serializeCell s2) = cl.mapM (serializeCell s1) := by
  induction cl with
  | nil => rfl
  | cons c t ih =>
    rw [List.mapM_cons, List.mapM_cons, serializeCell_congr s1 s2 h c, ih]

/-- The panelId cross-reference only reads the state through the heap. -/
theorem panelIdFields_congr (s1 s2 : VBState) (h : ∀ x, hget s2 x = hget s1 x)
    (e : Elem) : panelIdFields s2 e = panelIdFields s1 e := by
  unfold panelIdFields
  cases e.parent with
  | none => rfl
  | some p =>
    dsimp only
    rw [h p]

/-- The element record only reads the state through the heap. -/
theorem serializeElemBody_congr (s1 s2 : VBState) (h : ∀ x, hget s2 x = hget s1 x)
    (e : Elem) : serializeElemBody s2 e = serializeElemBody s1 e := by
  unfold serializeElemBody
  simp only [mapM_serializeCell_congr s1 s2 h]

/-- _serialize_elem only reads the state through the heap. -/
theorem serializeElem_congr (s1 s2 : VBState) (h : ∀ x, hget s2 x = hget s1 x)
    (e : Elem) : serializeElem s2 e = serializeElem s1 e := by
  unfold serializeElem
  rw [serializeElemBody_congr s1 s2 h, panelIdFields_congr s1 s2 h]

/-- The element-collection pass only reads the state through the heap. -/
theorem filterMap_hget_congr (s1 s2 : VBState) (h : ∀ x, hget s2 x = hget s1 x)
    (l : List Nat) :
    l.filterMap (fun i => hget s2 i) = l.filterMap (fun i => hget s1 i) := by
  induction l with
  | nil => rfl
  | cons i t ih => rw [List.filterMap_cons, List.filterMap_cons, h i, ih]

/-- Serializing a fixed element list only reads the state through the
heap. -/
theorem mapM_serializeElem_congr (s1 s2 : VBState) (h : ∀ x, hget s2 x = hget s1 x)
    (l : List Elem) :
    l.mapM (serializeElem s2) = l.mapM (serializeElem s1) := by
  induction l with
  | nil => rfl
  | cons e t ih =>
    rw [List.mapM_cons, List.mapM_cons, serializeElem_congr s1 s2 h e, ih]

/-- Two serialization passes over an unmodified model with distinct
registry entries produce identical record lists. -/
theorem serializeVB_determ (s : VBState) (hnd : s.registry.Nodup) :
    (serializeVB (serializeVB s).2).1 = (serializeVB s).1 := by
  show (serializeVB (assignIds s)).1 = (serializeVB s).1
  have hpoint : ∀ x, hget (assignIds (assignIds s)) x = hget (assignIds s) x :=
    assignIds_get_idem s hnd
  show (sSort elemKey ((assignIds (assignIds s)).registry.filterMap
      (fun i => hget (assignIds (assignIds s)) i))).mapM
      (serializeElem (assignIds (assignIds s))) =
    (sSort elemKey ((assignIds s).registry.filterMap
      (fun i => hget (assignIds s) i))).mapM (serializeElem (assignIds s))
  rw [assignIds_registry (assignIds s),
    filterMap_hget_congr (assignIds s) (assignIds (assignIds s)) hpoint,
    mapM_serializeElem_congr (assignIds s) (assignIds (assignIds s)) hpoint]

/-- The sort key depends only on the element class. -/
theorem elemKey_eq_kindKey (e : Elem) : elemKey e = kindKey e.kind := rfl

/-- The sort-key order is asymmetric. -/
theorem kindKey_asymm (a b : ElemKind) :
    keyLtB (kindKey a) (kindKey b) = true → keyLtB (kindKey b) (kindKey a) = false := by
  cases a <;> cases b <;> decide

/-- The sort-key order is co-transitive. -/
theorem kindKey_cotrans (a b c : ElemKind) :
    keyLtB (kindKey a) (kindKey b) = true →
    keyLtB (kindKey a) (kindKey c) = true ∨ keyLtB (kindKey c) (kindKey b) = true := by
  cases a <;> cases b <;> cases c <;> decide

/-- No key sorts strictly before the panel key. -/
theorem kindKey_panel_not_lt (a : ElemKind) :
    keyLtB (kindKey a) (kindKey .panel) = false := by
  cases a <;> decide

/-- The panel key sorts strictly before every non-panel key. -/
theorem kindKey_panel_lt (a : ElemKind) (ha : ¬a = .panel) :
    keyLtB (kindKey .panel) (kindKey a) = true := by
  revert ha
  cases a <;> decide

/-- Membership through the stable insertion. -/
theorem mem_sInsert {α : Type} (k : α → Nat × String) (x y : α) (l : List α) :
    y ∈ sInsert k x l ↔ y = x ∨ y ∈ l := by
  induction l with
  | nil => simp [sInsert]
  | cons z t ih =>
    unfold sInsert
    by_cases hlt : keyLtB (k z) (k x) = true
    · rw [if_pos hlt]
      simp only [List.mem_cons, ih]
      try tauto
    · rw [if_neg hlt]
      simp only [List.mem_cons]
      try tauto

/-- The stable sort is a permutation membership-wise. -/
theorem mem_sSort {α : Type} (k : α → Nat × String) (y : α) (l : List α) :
    y ∈ sSort k l ↔ y ∈ l := by
  induction l with
  | nil => simp [sSort]
  | cons x t ih =>
    unfold sSort
    rw [mem_sInsert, ih]
    simp

/-- Insertion walks past a prefix of strictly smaller keys. -/
theorem sInsert_append_ge {α : Type} (k : α → Nat × String) (x : α) (A B : List α)
    (hA : ∀ y ∈ A, keyLtB (k y) (k x) = true) :
    sInsert k x (A ++ B) = A ++ sInsert k x B := by
  induction A with
  | nil => rfl
  | cons y t ih =>
    rw [List.cons_append]
    show (if keyLtB (k y) (k x) = true then y :: sInsert k x (t ++ B)
      else x :: y :: (t ++ B)) = (y :: t) ++ sInsert k x B
    rw [if_pos (hA y (List.mem_cons_self y t)),
      ih (fun z hz => hA z (List.mem_cons_of_mem y hz)), List.cons_append]

/-- The ordering pass puts all panels first, in their original
(registry) order, followed by the stable sort of the others. -/
theorem sSort_split (l : List Elem) :
    sSort elemKey l =
      l.filter (fun e => decide (e.kind = .panel)) ++
      sSort elemKey (l.filter (fun e => !decide (e.kind = .panel))) := by
  induction l with
  | nil => rfl
  | cons x xs ih =>
    show sInsert elemKey x (sSort elemKey xs) = _
    rw [ih]
    by_cases hx : x.kind = .panel
    · have hfront : ∀ y, y ∈ xs.filter (fun e => decide (e.kind = .panel)) ++
          sSort elemKey (xs.filter (fun e => !decide (e.kind = .panel))) →
          keyLtB (elemKey y) (elemKey x) = false := by
        intro y hy
        rw [elemKey_eq_kindKey, elemKey_eq_kindKey, hx]
        exact kindKey_panel_not_lt y.kind
      have hL : sInsert elemKey x (xs.filter (fun e => decide (e.kind = .panel)) ++
          sSort elemKey (xs.filter (fun e => !decide (e.kind = .panel)))) =
          x :: (xs.filter (fun e => decide (e.kind = .panel)) ++
          sSort elemKey (xs.filter (fun e => !decide (e.kind = .panel)))) := by
        cases hc : xs.filter (fun e => decide (e.kind = .panel)) ++
            sSort elemKey (xs.filter (fun e => !decide (e.kind = .panel))) with
        | nil => rfl
        | cons y t =>
          unfold sInsert
          rw [if_neg]
          rw [hfront y (by rw [hc]; exact List.mem_cons_self y t)]
          simp
      rw [hL, List.filter_cons_of_pos (by simpa using hx),
        List.filter_cons_of_neg (by simpa using hx), List.cons_append]
    · rw [List.filter_cons_of_neg (by simpa using hx),
        List.filter_cons_of_pos (by simpa using hx)]
      show sInsert elemKey x _ = _
      rw [sInsert_append_ge elemKey x _ _ (fun y hy => by
        rw [elemKey_eq_kindKey, elemKey_eq_kindKey,
          show y.kind = .panel from by simpa using (List.mem_filter.mp hy).2]
        exact kindKey_panel_lt x.kind hx)]
      rfl

/-- Stable insertion preserves sortedness. -/
theorem sInsert_pairwise (x : Elem) (l : List Elem)
    (hl : List.Pairwise (fun a b => keyLtB (elemKey b) (elemKey a) = false) l) :
    List.Pairwise (fun a b => keyLtB (elemKey b) (elemKey a) = false)
      (sInsert elemKey x l) := by
  induction l with
  | nil => simp [sInsert]
  | cons y t ih =>
    obtain ⟨hy, ht⟩ := List.pairwise_cons.mp hl
    unfold sInsert
    by_cases hlt : keyLtB (elemKey y) (elemKey x) = true
    · rw [if_pos hlt]
      refine List.pairwise_cons.mpr ⟨?_, ih ht⟩
      intro z hz
      rcases (mem_sInsert elemKey x z t).mp hz with hzx | hzt
      · rw [hzx]
        exact kindKey_asymm y.kind x.kind hlt
      · exact hy z hzt
    · rw [if_neg hlt]
      refine List.pairwise_cons.mpr ⟨?_, hl⟩
      intro z hz
      rcases List.mem_cons.mp hz with hzy | hzt
      · rw [hzy]
        simpa using hlt
      · cases hzx : keyLtB (elemKey z) (elemKey x) with
        | false => rfl
        | true =>
          exfalso
          rcases kindKey_cotrans z.kind x.kind y.kind hzx with h1 | h1
          · rw [← elemKey_eq_kindKey, ← elemKey_eq_kindKey, hy z hzt] at h1
            exact Bool.noConfusion h1
          · exact hlt h1
  
/-- The ordering pass produces a list with no key inversions: the
non-panel tail is ordered by element-kind name. -/
theorem sSort_pairwise (l : List Elem) :
    List.Pairwise (fun a b => keyLtB (elemKey b) (elemKey a) = false)
      (sSort elemKey l) := by
  induction l with
  | nil => simp [sSort]
  | cons x t ih => exact sInsert_pairwise x _ ih

/-- An ok result of record-then-append splits into the record and the
appended tail. -/
theorem except_bind_pure_append (X : Except Unit (List (String × PyVal)))
    (tail r : List (String × PyVal))
    (h : (do
        let body ← X
        pure (body ++ tail) : Except Unit (List (String × PyVal))) = .ok r) :
    ∃ body, X = .ok body ∧ r = body ++ tail := by
  cases X with
  | error u => exact Except.noConfusion h
  | ok b =>
    refine ⟨b, rfl, ?_⟩
    have hb : Except.ok (b ++ tail) = (Except.ok r : Except Unit _) := h
    injection hb with hb
    exact hb.symm

/-- A serialized child of a panel that carries an id embeds that id, from
the same pass, as the final panelId field. -/
theorem serializeElem_panelId (s : VBState) (e : Elem) (p : Nat) (pe : Elem)
    (vid : String) (r : List (String × PyVal))
    (hp : e.parent = some p) (hq : hget s p = some pe) (hv : pe.vbId = some vid)
    (h : serializeElem s e = .ok r) :
    ∃ body, r = body ++ [("panelId", PyVal.str vid)] := by
  have hpid : panelIdFields s e = [("panelId", .str vid)] := by
    unfold panelIdFields
    simp only [hp, hq, hv]
  unfold serializeElem at h
  obtain ⟨body, hXb, hr⟩ := except_bind_pure_append _ _ _ h
  exact ⟨body, by rw [hr, hpid]⟩

/-- Claim C9.  A second serialization pass over the unmodified model
(with distinct registry entries, as construction guarantees) produces
records identical to the first pass: the id assignment is deterministic,
so even the identifier values coincide, and parent/child cross-references
agree under each pass's own identifiers.  The ordering pass puts all
panels first in registry order, then the remaining elements with no
key inversions (tie-broken by element-kind name), and a child's record
embeds its parent's identifier taken from the same pass's state. -/
theorem c9_serializer_order :
    (∀ s : VBState, s.registry.Nodup →
      (serializeVB (serializeVB s).2).1 = (serializeVB s).1) ∧
    (∀ l : List Elem,
      sSort elemKey l =
        l.filter (fun e => decide (e.kind = .panel)) ++
        sSort elemKey (l.filter (fun e => !decide (e.kind = .panel)))) ∧
    (∀ l : List Elem,
      List.Pairwise (fun a b => keyLtB (elemKey b) (elemKey a) = false)
        (sSort elemKey l)) ∧
    (∀ (s : VBState) (e : Elem) (p : Nat) (pe : Elem) (vid : String)
        (r : List (String × PyVal)),
      e.parent = some p → hget s p = some pe → pe.vbId = some vid →
      serializeElem s e = .ok r →
      ∃ body, r = body ++ [("panelId", PyVal.str vid)]) :=
  ⟨serializeVB_determ, sSort_split, sSort_pairwise,
    fun s e p pe vid r hp hq hv h => serializeElem_panelId s e p pe vid r hp hq hv h⟩

/-- Witness for claim C9 at concrete inputs: a model with one panel and
one rect serializes identically twice, sorts panel-first, and the added
child embeds panelId panel-1. -/
theorem c9_serializer_witness :
    ((serializeVB (serializeVB (runOps [.newPanel "P", .newRect pvPos00])).2).1 =
      (serializeVB (runOps [.newPanel "P", .newRect pvPos00])).1) ∧
    (sSort elemKey [mkRect pvPos00, mkPanel "P"] =
      ([mkRect pvPos00, mkPanel "P"].filter (fun e => decide (e.kind = .panel))) ++
      sSort elemKey ([mkRect pvPos00, mkPanel "P"].filter
        (fun e => !decide (e.kind = .panel)))) ∧
    (List.Pairwise (fun a b => keyLtB (elemKey b) (elemKey a) = false)
      (sSort elemKey [mkRect pvPos00, mkPanel "P"])) ∧
    (∃ body,
      ((serializeElem (serializeVB (runOps [.newPanel "P", .newRect pvPos00,
          .panelAdd 0 1])).2
        ((hget (serializeVB (runOps [.newPanel "P", .newRect pvPos00,
          .panelAdd 0 1])).2 1).getD (mkRect pvPos00))).toOption.getD []) =
        body ++ [("panelId", PyVal.str "panel-1")]) :=
  ⟨c9_serializer_order.1 _ (by decide),
   c9_serializer_order.2.1 _,
   c9_serializer_order.2.2.1 _,
   c9_serializer_order.2.2.2
     (serializeVB (runOps [.newPanel "P", .newRect pvPos00, .panelAdd 0 1])).2
     ((hget (serializeVB (runOps [.newPanel "P", .newRect pvPos00,
       .panelAdd 0 1])).2 1).getD (mkRect pvPos00))
     0
     ((hget (serializeVB (runOps [.newPanel "P", .newRect pvPos00,
       .panelAdd 0 1])).2 0).getD (mkPanel "P"))
     "panel-1" _ (by rfl) (by rfl) (by rfl) (by rfl)⟩
